import Mathlib

/-!
# Ethereum deterministic wrapper

A shallow embedding of `modules/ethereum/deterministic.js`: the hexadecimal
conversion `toHex`, the ABI call wrapper `encode`, the transaction builder
`deterministic.transaction` and the key functions `deterministic.keys`,
`deterministic.importPrivate` and `deterministic.privatekey`, together with the
part of the decimal layer (`common/crypto/decimal`, configured by
`Decimal.set({ precision: 64 })`) that these functions call.

JavaScript exceptions are modelled by `Option` (`none` is a thrown exception);
the two callbacks of `deterministic.transaction` are modelled by the
constructors of `Outcome`, and the control flow of its body by a statement of
type `Prog`, whose run lists the calls made and how the body ends.
-/

set_option maxRecDepth 100000

namespace Deterministic

/-! ## JavaScript values -/

/-- The JavaScript values that the fields of `data` carry in this model:
`undefined` (also a missing property), `null`, a number, a string, and any
other value (an object, an array, a function), kept under a name. A number is
carried as the text `String(n)`, through which the decimal layer reads it: for
an integer of magnitude at most `2 ^ 53 - 1` this is its decimal digits, with
`-` in front of a negative one, while `2 ** 60` is carried as
`1152921504606847000`. The number `-0`, whose text is `0`, is not
distinguished from `0`. -/
inductive JSVal where
  | undefined
  | null
  | num (text : String)
  | str (s : String)
  | other (what : String)
  deriving DecidableEq, Repr

/-! ## The decimal layer -/

/-- The setting `Decimal.set({ precision: 64 })` at the top of the module. -/
def precision : Nat := 64

/-- Modelled from the spec: the value type of the arbitrary-precision decimal
layer `common/crypto/decimal`, which is not among the sources. A finite value
is `± coeff / 10 ^ scale`, kept with the smallest possible `scale`; the layer
also has the two infinities and `NaN`, which a division by zero produces. -/
inductive Decimal where
  | nan
  | inf (neg : Bool)
  | fin (neg : Bool) (coeff : Nat) (scale : Nat)
  deriving DecidableEq, Repr

/-- Modelled from the spec: helper of the decimal layer `common/crypto/decimal`
(not among the sources). Count of the base `b` digits of `n`, with `fuel` an
upper bound on it. -/
def numDigitsAux (b : Nat) : Nat → Nat → Nat
  | 0, _ => 0
  | fuel + 1, n => if n = 0 then 0 else numDigitsAux b fuel (n / b) + 1

/-- Modelled from the spec: helper of the decimal layer `common/crypto/decimal`
(not among the sources). Number of base `b` digits of `n` (zero has none). -/
def numDigits (b n : Nat) : Nat := numDigitsAux b n n

/-- Modelled from the spec: helper of the decimal layer `common/crypto/decimal`
(not among the sources). Base `b` digits of `n`, most significant first, with
`fuel` an upper bound on their number. -/
def digitsAux (b : Nat) : Nat → Nat → List Nat
  | 0, _ => []
  | fuel + 1, n => if n = 0 then [] else digitsAux b fuel (n / b) ++ [n % b]

/-- Modelled from the spec: helper of the decimal layer `common/crypto/decimal`
(not among the sources). Base `b` digits of `n`, most significant first (zero
has none). -/
def digitsBE (b n : Nat) : List Nat := digitsAux b n n

/-- Modelled from the spec: helper of the decimal layer `common/crypto/decimal`
(not among the sources). The characters of the base `b` numeral of `n`, in the
lower-case digits `0123456789abcdef`; zero is written `0`. -/
def numeralChars (b n : Nat) : List Char :=
  if n = 0 then ['0'] else (digitsBE b n).map Nat.digitChar

/-- Modelled from the spec: helper of the decimal layer `common/crypto/decimal`
(not among the sources). The base `b` numeral of `n` as a string. -/
def numeral (b n : Nat) : String := String.mk (numeralChars b n)

/-- Modelled from the spec: helper of the decimal layer `common/crypto/decimal`
(not among the sources). Removes trailing zero digits of `c / b ^ s` after the
point. -/
def stripZeros (b : Nat) : Nat → Nat → Nat × Nat
  | c, 0 => (c, 0)
  | c, s + 1 => if c % b = 0 then stripZeros b (c / b) s else (c, s + 1)

/-- Modelled from the spec: rounding in the decimal layer
`common/crypto/decimal` (not among the sources). The quotient `N / D` is
rounded to `precision` significant base `b` digits, halves away from zero, and
returned as `(c, s)` standing for `c / b ^ s`. The quotient is first taken with
`K` extra digits, so that it has more than `precision` of them; `drop` is the
number of digits that are then rounded away. -/
def sigRound (b N D : Nat) : Nat × Nat :=
  if N = 0 then (0, 0)
  else
    let K := numDigits b D + precision
    let Q := N * b ^ K / D
    let drop := numDigits b Q - precision
    let m := (2 * N * b ^ K + D * b ^ drop) / (2 * D * b ^ drop)
    if K ≤ drop then (m * b ^ (drop - K), 0) else stripZeros b m (K - drop)

/-- Modelled from the spec: helper of the decimal layer `common/crypto/decimal`
(not among the sources). Value of a digit character: `0` to `9`, and `a` to `f`
for ten to fifteen. -/
def charVal (c : Char) : Nat := if c.isDigit then c.toNat - 48 else c.toNat - 87

/-- Modelled from the spec: helper of the decimal layer `common/crypto/decimal`
(not among the sources). Value of a base `b` numeral, most significant digit
first. -/
def numeralVal (b : Nat) (cs : List Char) : Nat :=
  cs.foldl (fun a c => b * a + charVal c) 0

/-- Modelled from the spec: helper of the decimal layer `common/crypto/decimal`
(not among the sources). The optional exponent `(e[+-]?\d+)?` that ends a
decimal numeral. -/
def parseExponent : List Char → Option Int
  | [] => some 0
  | c :: rest =>
    if c = 'e' ∨ c = 'E' then
      let sd : Bool × List Char :=
        match rest with
        | '-' :: ds => (true, ds)
        | '+' :: ds => (false, ds)
        | ds => (false, ds)
      if sd.2 ≠ [] ∧ sd.2.all Char.isDigit = true then
        some (if sd.1 then -(numeralVal 10 sd.2 : Int) else (numeralVal 10 sd.2 : Int))
      else none
    else none

/-- Modelled from the spec: reading of an unsigned decimal numeral
`(\d+(\.\d*)?|\.\d+)(e[+-]?\d+)?` by the decimal layer `common/crypto/decimal`
(not among the sources). The result `(c, s)` stands for `c / 10 ^ s`; `none`
when the characters are not such a numeral. -/
def parseDecimal (cs : List Char) : Option (Nat × Nat) :=
  let ip := cs.takeWhile Char.isDigit
  let r1 := cs.dropWhile Char.isDigit
  let fr : List Char × List Char :=
    match r1 with
    | '.' :: r => (r.takeWhile Char.isDigit, r.dropWhile Char.isDigit)
    | r => ([], r)
  if ip = [] ∧ fr.1 = [] then none
  else
    match parseExponent fr.2 with
    | none => none
    | some ex =>
      let c := numeralVal 10 (ip ++ fr.1)
      let sc : Int := (fr.1.length : Int) - ex
      some (if sc ≤ 0 then (c * 10 ^ (-sc).toNat, 0) else stripZeros 10 c sc.toNat)

/-- Value of a hexadecimal digit in either case; `none` for any other
character. -/
def hexNibble (c : Char) : Option Nat :=
  if c.isDigit then some (c.toNat - 48)
  else if 'a' ≤ c ∧ c ≤ 'f' then some (c.toNat - 87)
  else if 'A' ≤ c ∧ c ≤ 'F' then some (c.toNat - 55)
  else none

/-- Modelled from the spec: helper of the decimal layer `common/crypto/decimal`
(not among the sources). A character is a digit of the base `b`, in either
case. -/
def baseDigit (b : Nat) (c : Char) : Bool :=
  match hexNibble c with
  | some k => decide (k < b)
  | none => false

/-- Modelled from the spec: helper of the decimal layer `common/crypto/decimal`
(not among the sources). Value of a base `b` numeral in either case, most
significant digit first. -/
def baseVal (b : Nat) (cs : List Char) : Nat :=
  cs.foldl (fun a c => b * a + (hexNibble c).getD 0) 0

/-- Modelled from the spec: reading of an unsigned numeral in the prefixed
notations `0x`, `0b` and `0o` (hexadecimal, binary, octal; either case), with
an optional fraction, by the decimal layer `common/crypto/decimal` (not among
the sources). With `k` bits to a digit and `f` fractional digits the value is
the whole numeral over `2 ^ (k * f)`, returned as `(c, s)` for `c / 10 ^ s`.
A binary exponent part `p...` is not part of this model. -/
def parsePrefixed : List Char → Option (Nat × Nat)
  | '0' :: x :: rest =>
    let bits : Nat :=
      if x = 'x' ∨ x = 'X' then 4 else if x = 'b' ∨ x = 'B' then 1
      else if x = 'o' ∨ x = 'O' then 3 else 0
    if bits = 0 then none
    else
      let ip := rest.takeWhile (baseDigit (2 ^ bits))
      let r1 := rest.dropWhile (baseDigit (2 ^ bits))
      let fr : List Char × List Char :=
        match r1 with
        | '.' :: r => (r.takeWhile (baseDigit (2 ^ bits)), r.dropWhile (baseDigit (2 ^ bits)))
        | r => ([], r)
      if ip = [] ∧ fr.1 = [] then none
      else if fr.2 ≠ [] then none
      else
        some (stripZeros 10 (baseVal (2 ^ bits) (ip ++ fr.1) * 5 ^ (bits * fr.1.length))
          (bits * fr.1.length))
  | _ => none

/-- Modelled from the spec: reading of a numeral by the constructor of the
decimal layer `common/crypto/decimal` (not among the sources): an optional
sign, then a decimal numeral, `Infinity`, `NaN` or a prefixed numeral, read
without rounding; `none` when the text is none of these, the empty text
included. -/
def readNumeral (cs : List Char) : Option Decimal :=
  let sb : Bool × List Char :=
    match cs with
    | '-' :: r => (true, r)
    | '+' :: r => (false, r)
    | r => (false, r)
  match parseDecimal sb.2 with
  | some p => some (Decimal.fin sb.1 p.1 p.2)
  | none =>
    if sb.2 = ['I', 'n', 'f', 'i', 'n', 'i', 't', 'y'] then some (Decimal.inf sb.1)
    else if sb.2 = ['N', 'a', 'N'] then some Decimal.nan
    else (parsePrefixed sb.2).map (fun p => Decimal.fin sb.1 p.1 p.2)

/-- Modelled from the spec: the constructor `new Decimal(v)` of the decimal
layer `common/crypto/decimal` (not among the sources). A string is read as a
numeral, a number is read through its text `String(n)`, and every other value
makes the constructor throw (`none`), as does a string that is not a numeral,
the empty string included. -/
def newDecimal : JSVal → Option Decimal
  | JSVal.undefined => none
  | JSVal.null => none
  | JSVal.other _ => none
  | JSVal.num text => readNumeral text.toList
  | JSVal.str s => readNumeral s.toList

/-- Modelled from the spec: rounding of a finite magnitude `c / 10 ^ s` to
`precision` significant digits, as the arithmetic of the decimal layer
`common/crypto/decimal` (not among the sources) does with its results. -/
def roundFin (neg : Bool) (c s : Nat) : Decimal :=
  Decimal.fin neg (sigRound 10 c (10 ^ s)).1 (sigRound 10 c (10 ^ s)).2

/-- Modelled from the spec: `x.plus(y)` of the decimal layer
`common/crypto/decimal` (not among the sources): the exact sum, rounded to
`precision` significant digits. -/
def Decimal.plus : Decimal → Decimal → Decimal
  | Decimal.nan, _ => Decimal.nan
  | _, Decimal.nan => Decimal.nan
  | Decimal.inf n1, Decimal.inf n2 => if n1 = n2 then Decimal.inf n1 else Decimal.nan
  | Decimal.inf n1, Decimal.fin _ _ _ => Decimal.inf n1
  | Decimal.fin _ _ _, Decimal.inf n2 => Decimal.inf n2
  | Decimal.fin n1 c1 s1, Decimal.fin n2 c2 s2 =>
    let S := max s1 s2
    let a := c1 * 10 ^ (S - s1)
    let b := c2 * 10 ^ (S - s2)
    if n1 = n2 then roundFin n1 (a + b) S
    else if a = b then Decimal.fin false 0 0
    else if b < a then roundFin n1 (a - b) S
    else roundFin n2 (b - a) S

/-- Modelled from the spec: `x.dividedBy(y)` of the decimal layer
`common/crypto/decimal` (not among the sources): the exact quotient, rounded to
`precision` significant digits; a division by zero gives an infinity, or `NaN`
when the dividend is zero as well. -/
def Decimal.dividedBy : Decimal → Decimal → Decimal
  | Decimal.nan, _ => Decimal.nan
  | _, Decimal.nan => Decimal.nan
  | Decimal.inf _, Decimal.inf _ => Decimal.nan
  | Decimal.inf n1, Decimal.fin n2 _ _ => Decimal.inf (n1 != n2)
  | Decimal.fin n1 _ _, Decimal.inf n2 => Decimal.fin (n1 != n2) 0 0
  | Decimal.fin n1 c1 s1, Decimal.fin n2 c2 s2 =>
    if c2 = 0 then (if c1 = 0 then Decimal.nan else Decimal.inf (n1 != n2))
    else if c1 = 0 then Decimal.fin (n1 != n2) 0 0
    else
      Decimal.fin (n1 != n2) (sigRound 10 (c1 * 10 ^ s2) (c2 * 10 ^ s1)).1
        (sigRound 10 (c1 * 10 ^ s2) (c2 * 10 ^ s1)).2

/-- Modelled from the spec: helper of the decimal layer `common/crypto/decimal`
(not among the sources). The whole number nearest to `c / 10 ^ s`, a half
rounded up. -/
def roundHalfUp (c s : Nat) : Nat := (2 * c + 10 ^ s) / (2 * 10 ^ s)

/-- Modelled from the spec: `x.toFixed(0)` of the decimal layer
`common/crypto/decimal` (not among the sources): the value rounded to a whole
number, halves away from zero, written in decimal digits. -/
def Decimal.toFixed0 : Decimal → String
  | Decimal.nan => "NaN"
  | Decimal.inf neg => if neg then "-Infinity" else "Infinity"
  | Decimal.fin neg c s =>
    (if neg ∧ c ≠ 0 then "-" else "") ++ numeral 10 (roundHalfUp c s)

/-- Modelled from the spec: helper of the decimal layer `common/crypto/decimal`
(not among the sources). Hexadecimal digits of `c / 16 ^ f`: a whole number
when `f = 0`, otherwise the whole part, a point and `f` fractional digits. -/
def hexBody (c f : Nat) : String :=
  if f = 0 then numeral 16 c
  else
    numeral 16 (c / 16 ^ f) ++ "." ++
      String.mk (List.replicate (f - numDigits 16 (c % 16 ^ f)) '0' ++
        (digitsBE 16 (c % 16 ^ f)).map Nat.digitChar)

/-- Modelled from the spec: `x.toHex()` of the decimal layer
`common/crypto/decimal` (not among the sources): the value in hexadecimal with
the prefix `0x`, rounded to `precision` significant hexadecimal digits. -/
def Decimal.toHex : Decimal → String
  | Decimal.nan => "NaN"
  | Decimal.inf neg => if neg then "-Infinity" else "Infinity"
  | Decimal.fin neg c s =>
    (if neg then "-" else "") ++ "0x" ++
      hexBody (sigRound 16 c (10 ^ s)).1 (sigRound 16 c (10 ^ s)).2

/-! ## `toHex` -/

/-- The function `toHex` of the module: `new Decimal(input).toHex()`, with
`'0x0'` in place of an empty result. `none` when the constructor throws. -/
def toHex (input : JSVal) : Option String :=
  match newDecimal input with
  | none => none
  | some d =>
    let result := d.toHex
    some (if result ≠ "" then result else "0x0")

/-! ## External libraries -/

/-- The fields of `txParams` that `deterministic.transaction` hands to the
transaction library (`to_` is the field `to`); `data` is absent in a plain
transfer without a message. -/
structure TxParams where
  nonce : String
  gasPrice : String
  gasLimit : String
  to_ : JSVal
  value : String
  data : Option JSVal
  deriving DecidableEq, Repr

/-- The npm libraries behind `wrapperlib`, which the module calls and does not
define. `simpleEncode f args` is `ethABI.simpleEncode(f, ...args).toString('hex')`
and `signSerialize p key` is the hexadecimal form of
`new EthTx(p)`, signed with `key` and serialized; `none` is a thrown
exception. -/
structure Libs where
  simpleEncode : String → List JSVal → Option String
  signSerialize : TxParams → List Nat → Option String

/-! ## `encode` -/

/-- A name is an identifier: a letter, `_` or `$`, followed by letters,
digits, `_` and `$`. -/
def isIdentifier (name : String) : Bool :=
  match name.toList with
  | [] => false
  | c :: rest =>
    (c.isAlpha || c == '_' || c == '$') &&
      rest.all (fun x => x.isAlphanum || x == '_' || x == '$')

/-- The argument of `encode`, an object with the signature `func`, the
ordered names `vars` and further properties `props`, by name. The function
pastes each name into the text of a generated function, after `data.`; the
model covers the names for which this text reads a property, the identifiers
(`identifiers`). -/
structure CallData where
  func : String
  vars : List String
  props : List (String × JSVal)
  identifiers : ∀ name ∈ vars, isIdentifier name = true

/-- The names that every object inherits from `Object.prototype`. -/
def objectPrototypeNames : List String :=
  ["constructor", "toString", "toLocaleString", "valueOf", "hasOwnProperty",
    "isPrototypeOf", "propertyIsEnumerable", "__proto__", "__defineGetter__",
    "__defineSetter__", "__lookupGetter__", "__lookupSetter__"]

/-- The value of `data.name` for the argument of `encode`: the signature for
`func`, the array of names for `vars`, the property of that name when the
object has one, the inherited member for a name of `Object.prototype`, and
`undefined` for any other name. -/
def CallData.prop (d : CallData) (name : String) : JSVal :=
  if name = "func" then JSVal.str d.func
  else if name = "vars" then JSVal.other "vars"
  else
    match d.props.lookup name with
    | some v => v
    | none =>
      if name ∈ objectPrototypeNames then JSVal.other name else JSVal.undefined

/-- The function `encode` of the module: the generated function body is
`return wrapperlib.ethABI.simpleEncode(data.func, data.v1, ..., data.vn);`
for `vars = [v1, ..., vn]`; with no name at all the body ends in `data.` and
does not parse. -/
def encode (L : Libs) (d : CallData) : Option String :=
  if d.vars = [] then none
  else
    match L.simpleEncode d.func (d.vars.map d.prop) with
    | none => none
    | some hex => some ("0x" ++ hex)

/-! ## `deterministic.transaction` -/

/-- The object `data.unspent`. -/
structure Unspent where
  nonce : JSVal
  gasBaseFee : JSVal
  gasLimit : JSVal
  gasDataFee : JSVal

/-- The argument `data` of `deterministic.transaction`; `unspent = none` when
the object has no property `unspent`, and `privateKey` is
`data.keys.privateKey`. -/
structure TxData where
  mode : JSVal
  fee : JSVal
  target : JSVal
  amount : JSVal
  contract : JSVal
  message : JSVal
  unspent : Option Unspent
  privateKey : List Nat

/-- How a run of the transaction builder ends before signing: with the
parameters, with a call of `errorCallback`, or with an exception. -/
inductive Step where
  | ok (p : TxParams)
  | reported (msg : String)
  | thrown
  deriving DecidableEq, Repr

/-- How a call of `deterministic.transaction` ends: `errorCallback(msg)`,
`dataCallback(rawTx)`, or an exception with neither callback invoked. -/
inductive Outcome where
  | error (msg : String)
  | data (rawTx : String)
  | thrown
  deriving DecidableEq, Repr

/-- The constant `hasValidMessage`: the message is neither `undefined`, `null`
nor the empty string. -/
def hasValidMessage (message : JSVal) : Bool :=
  decide (message ≠ JSVal.undefined ∧ message ≠ JSVal.null ∧ message ≠ JSVal.str "")

/-- The constant `gasPrice`: `fee.dividedBy(gasBaseFee.plus(gasDataFee))`. -/
def gasPriceOf (fee gasBaseFee gasDataFee : Decimal) : Decimal :=
  fee.dividedBy (gasBaseFee.plus gasDataFee)

/-- The message of the first call of `errorCallback`. -/
def missingUnspent : String := "Missing unspent (pre-transactional) data"

/-- The message of the second call of `errorCallback`. -/
def noAttachment : String := "Cannot send attachment data with ERC20 tokens yet!"

/-- The object that the token branch hands to `encode`:
`{func: 'transfer(address,uint256):(bool)', vars: ['target', 'amount'],
target: data.target, amount: toHex(data.amount)}`. -/
def transferCall (target : JSVal) (amount : String) : CallData :=
  { func := "transfer(address,uint256):(bool)"
    vars := ["target", "amount"]
    props := [("target", target), ("amount", JSVal.str amount)]
    identifiers := by decide }

/-- The body of `deterministic.transaction` up to the construction of the
transaction object, statement by statement. -/
def transactionParams (L : Libs) (data : TxData) : Step :=
  match newDecimal data.fee with
  | none => Step.thrown
  | some fee =>
    match data.unspent with
    | none => Step.reported missingUnspent
    | some u =>
      match newDecimal u.gasBaseFee with
      | none => Step.thrown
      | some gasBaseFee =>
        match newDecimal u.gasLimit with
        | none => Step.thrown
        | some gasLimit =>
          match newDecimal u.gasDataFee with
          | none => Step.thrown
          | some gasDataFee =>
            let gasPrice := gasPriceOf fee gasBaseFee gasDataFee
            match toHex u.nonce with
            | none => Step.thrown
            | some nonce =>
              match toHex (JSVal.str gasPrice.toFixed0) with
              | none => Step.thrown
              | some gp =>
                match toHex (JSVal.str gasLimit.toFixed0) with
                | none => Step.thrown
                | some gl =>
                  if data.mode ≠ JSVal.str "token" then
                    match toHex data.amount with
                    | none => Step.thrown
                    | some value =>
                      Step.ok
                        { nonce := nonce, gasPrice := gp, gasLimit := gl
                          to_ := data.target, value := value
                          data := if hasValidMessage data.message then some data.message
                                  else none }
                  else
                    match toHex data.amount with
                    | none => Step.thrown
                    | some amount =>
                      match encode L (transferCall data.target amount) with
                      | none => Step.thrown
                      | some encoded =>
                        if hasValidMessage data.message then Step.reported noAttachment
                        else
                          Step.ok
                            { nonce := nonce, gasPrice := gp, gasLimit := gl
                              to_ := data.contract, value := "0x0"
                              data := some (JSVal.str encoded) }

/-- The function `deterministic.transaction`: the parameters are built, the
transaction is signed and serialized, and `'0x'` followed by its hexadecimal
form goes to `dataCallback`. -/
def transaction (L : Libs) (data : TxData) : Outcome :=
  match transactionParams L data with
  | Step.thrown => Outcome.thrown
  | Step.reported msg => Outcome.error msg
  | Step.ok p =>
    match L.signSerialize p data.privateKey with
    | none => Outcome.thrown
    | some hex => Outcome.data ("0x" ++ hex)

/-! ## Reading numerals and sample libraries -/

/-- A character is one of the hexadecimal digits `0123456789abcdef`. -/
def isHexDigit (c : Char) : Bool := c.isDigit || (decide ('a' ≤ c) && decide (c ≤ 'f'))

/-- A library pair that accepts every call: the encoder returns the selector
of `transfer(address,uint256)` and the signer a fixed serialization. -/
def acceptingLibs : Libs where
  simpleEncode := fun _ _ => some "a9059cbb"
  signSerialize := fun _ _ => some "f86b"

/-- A library pair whose encoder rejects every call. -/
def rejectingLibs : Libs where
  simpleEncode := fun _ _ => none
  signSerialize := fun _ _ => some "f86b"

/-- The integer that a sign and a magnitude stand for. -/
def signedVal (neg : Bool) (c : Nat) : Int := if neg then -(c : Int) else (c : Int)

/-! ## Sample inputs -/

/-- The unspent data of the end-to-end scenario of the specification. -/
def sampleUnspent : Unspent :=
  { nonce := JSVal.num "5", gasBaseFee := JSVal.num "21000", gasLimit := JSVal.num "21000"
    gasDataFee := JSVal.num "0" }

/-- The plain transfer of the end-to-end scenario of the specification. -/
def sampleTx : TxData :=
  { mode := JSVal.str "native", fee := JSVal.str "21000000000000"
    target := JSVal.str "0xabc", amount := JSVal.str "1000000000000000000"
    contract := JSVal.undefined, message := JSVal.undefined
    unspent := some sampleUnspent, privateKey := [] }

/-- The sample transfer with a fee of `10 ^ 64 + 1` and a single unit of gas. -/
def bigFeeTx : TxData :=
  { sampleTx with
    fee := JSVal.str "10000000000000000000000000000000000000000000000000000000000000001"
    unspent := some { sampleUnspent with gasBaseFee := JSVal.num "1" } }

/-- The sample transfer with a data fee of `1000` units of gas. -/
def dataFeeTx : TxData :=
  { sampleTx with unspent := some { sampleUnspent with gasDataFee := JSVal.num "1000" } }

/-- The sample transfer with both gas fees zero. -/
def zeroGasTx : TxData :=
  { sampleTx with unspent := some { sampleUnspent with gasBaseFee := JSVal.num "0" } }

/-- The sample transfer with a negative base fee: `-1 + 3` units for a fee
of `4`. -/
def negativeGasTx : TxData :=
  { sampleTx with
    fee := JSVal.num "4"
    unspent := some { sampleUnspent with gasBaseFee := JSVal.num "-1", gasDataFee := JSVal.num "3" } }

/-- An input without `unspent` and without `fee`. -/
def bareTx : TxData :=
  { sampleTx with fee := JSVal.undefined, unspent := none }

/-- A token transfer with a message and without an amount. -/
def tokenMessageTx : TxData :=
  { sampleTx with
    mode := JSVal.str "token", contract := JSVal.str "0xdef", message := JSVal.str "hi"
    amount := JSVal.undefined }

/-- A token transfer with a message and an amount. -/
def tokenMessageAmountTx : TxData :=
  { sampleTx with
    mode := JSVal.str "token", contract := JSVal.str "0xdef", message := JSVal.str "hi" }

/-- The sample transfer with a message. -/
def nativeMessageTx : TxData :=
  { sampleTx with message := JSVal.str "hello" }

/-- A token transfer without a message. -/
def tokenTx : TxData :=
  { sampleTx with mode := JSVal.str "token", contract := JSVal.str "0xdef" }

/-! ## Keys -/

/-- The object with the property `privateKey` that `deterministic.keys` and
`deterministic.importPrivate` return; the buffer is a list of bytes. -/
structure KeyPair where
  privateKey : List Nat
  deriving DecidableEq, Repr

/-- The runtime's `Buffer.from(s, 'hex')` on the characters of `s`: one byte
for each leading pair of hexadecimal digits; decoding stops at the first pair
that is not one, and a last single character is dropped. -/
def hexDecode : List Char → List Nat
  | c1 :: c2 :: rest =>
    match hexNibble c1, hexNibble c2 with
    | some a, some b => (16 * a + b) :: hexDecode rest
    | _, _ => []
  | _ => []

/-- The runtime's `buffer.toString('hex')`: two lower-case hexadecimal digits
for each byte. -/
def hexEncode : List Nat → List Char
  | [] => []
  | b :: rest => Nat.digitChar (b / 16) :: Nat.digitChar (b % 16) :: hexEncode rest

/-- The function `deterministic.keys`: the private key is
`ethUtil.sha256(data.seed)`, a function of the library; `none` when it
throws. -/
def keys (sha256 : JSVal → Option (List Nat)) (seed : JSVal) : Option KeyPair :=
  match sha256 seed with
  | none => none
  | some h => some { privateKey := h }

/-- The function `deterministic.importPrivate`:
`Buffer.from(data.privateKey, 'hex')`, which throws (`none`) when the value is
not a string. -/
def importPrivate (privateKey : JSVal) : Option KeyPair :=
  match privateKey with
  | JSVal.str s => some { privateKey := hexDecode s.toList }
  | _ => none

/-- The function `deterministic.privatekey`:
`data.privateKey.toString('hex')`. -/
def privatekey (data : KeyPair) : String := String.mk (hexEncode data.privateKey)

/-! ## More sample inputs -/

/-- The sample transfer with a gas limit of `21000.5`. -/
def fractionalLimitTx : TxData :=
  { sampleTx with unspent := some { sampleUnspent with gasLimit := JSVal.str "21000.5" } }

/-- The sample transfer with a fee of `3` for `2 + 0` units of gas. -/
def halfRateTx : TxData :=
  { sampleTx with
    fee := JSVal.num "3"
    unspent := some { sampleUnspent with gasBaseFee := JSVal.num "2" } }

/-- The sample transfer with the mode `TOKEN`, in upper case, and a contract. -/
def upperTokenTx : TxData :=
  { sampleTx with mode := JSVal.str "TOKEN", contract := JSVal.str "0xdef" }

/-- A call without parameters: `totalSupply()` with an empty list of names. -/
def emptyCall : CallData :=
  { func := "totalSupply():(uint256)", vars := [], props := [], identifiers := by decide }

/-- The sample transfer with a fee of `21000000000000.5` and a data fee of
`0.5` units of gas. -/
def decimalFeeTx : TxData :=
  { sampleTx with
    fee := JSVal.str "21000000000000.5"
    unspent := some { sampleUnspent with gasDataFee := JSVal.str "0.5" } }

/-! ## Exact values -/

/-- The sum `± c1 / 10 ^ s1 ± c2 / 10 ^ s2` written at the scale
`max s1 s2`: the integer `z` with sum `z / 10 ^ max s1 s2`. -/
def scaledSum (n1 : Bool) (c1 s1 : Nat) (n2 : Bool) (c2 s2 : Nat) : Int :=
  signedVal n1 (c1 * 10 ^ (max s1 s2 - s1)) + signedVal n2 (c2 * 10 ^ (max s1 s2 - s2))

/-- The rational value of a finite decimal; zero for the other values. -/
def Decimal.toRat : Decimal → ℚ
  | Decimal.fin neg c s => (if neg then -1 else 1) * (c : ℚ) / 10 ^ s
  | _ => 0

/-! ## The control flow of `deterministic.transaction` -/

/-- A call that `deterministic.transaction` makes to the outside: the
hand-over of the parameters to the transaction library for signing
(`new EthTx(txParams)`, `tx.sign`, `tx.serialize`), or one of the two
callbacks. -/
inductive Call where
  | toSigner
  | errorCallback (msg : String)
  | dataCallback
  deriving DecidableEq, Repr

/-- A call is a call of one of the two callbacks. -/
def Call.isCallback : Call → Bool
  | Call.toSigner => false
  | Call.errorCallback _ => true
  | Call.dataCallback => true

/-- How the execution of a statement ends: it falls through to the next
statement, it returns from the function, or it throws. -/
inductive Status where
  | normal
  | returned
  | thrown
  deriving DecidableEq, Repr

/-- The statements of a function body, as far as its calls are concerned:
nothing, `return`, the evaluation of expressions (which throws when `ok` is
false), a call, two statements in sequence, and `if`/`else` on a condition
already evaluated. -/
inductive Prog where
  | skip
  | ret
  | eval (ok : Bool)
  | call (c : Call)
  | seq (a b : Prog)
  | ite (c : Bool) (t e : Prog)

/-- The calls made by a statement, in order, and how it ends; the second of
two statements in sequence runs only when the first falls through. -/
def Prog.run : Prog → List Call × Status
  | Prog.skip => ([], Status.normal)
  | Prog.ret => ([], Status.returned)
  | Prog.eval ok => ([], if ok then Status.normal else Status.thrown)
  | Prog.call c => ([c], Status.normal)
  | Prog.seq a b =>
    if (Prog.run a).2 = Status.normal then ((Prog.run a).1 ++ (Prog.run b).1, (Prog.run b).2)
    else Prog.run a
  | Prog.ite c t e => if c then Prog.run t else Prog.run e

/-- The text of the fee rate, `gasPrice.toFixed(0)`, when the three decimals
it is computed from are constructed. -/
def gasPriceText (data : TxData) (u : Unspent) : Option String :=
  match newDecimal data.fee, newDecimal u.gasBaseFee, newDecimal u.gasDataFee with
  | some fee, some gasBaseFee, some gasDataFee =>
    some (gasPriceOf fee gasBaseFee gasDataFee).toFixed0
  | _, _, _ => none

/-- The body of `deterministic.transaction` (lines 82 to 141), statement by
statement, with each condition and the success of each evaluation read off
the input. An evaluation on `data.unspent` throws when that property is
missing. -/
def transactionProg (L : Libs) (data : TxData) : Prog :=
  -- line 85: const fee = new Decimal(data.fee);
  Prog.seq (Prog.eval (newDecimal data.fee).isSome) <|
  -- lines 86-89: if (!data.hasOwnProperty('unspent')) { errorCallback(...); return; }
  Prog.seq (Prog.ite data.unspent.isNone
    (Prog.seq (Prog.call (Call.errorCallback missingUnspent)) Prog.ret) Prog.skip) <|
  -- lines 91-93: the three decimals of data.unspent
  Prog.seq (Prog.eval (data.unspent.bind (fun u => newDecimal u.gasBaseFee)).isSome) <|
  Prog.seq (Prog.eval (data.unspent.bind (fun u => newDecimal u.gasLimit)).isSome) <|
  Prog.seq (Prog.eval (data.unspent.bind (fun u => newDecimal u.gasDataFee)).isSome) <|
  -- lines 110-114: nonce, gasPrice and gasLimit of txParams
  Prog.seq (Prog.eval (data.unspent.bind (fun u => toHex u.nonce)).isSome) <|
  Prog.seq (Prog.eval (data.unspent.bind (fun u =>
    (gasPriceText data u).bind (fun t => toHex (JSVal.str t)))).isSome) <|
  Prog.seq (Prog.eval (data.unspent.bind (fun u =>
    (newDecimal u.gasLimit).bind (fun g => toHex (JSVal.str g.toFixed0)))).isSome) <|
  -- lines 116-132: the two modes
  Prog.seq (Prog.ite (decide (data.mode ≠ JSVal.str "token"))
    -- line 118: txParams.value = toHex(data.amount);
    (Prog.eval (toHex data.amount).isSome)
    -- line 123: const encoded = encode({..., 'amount': toHex(data.amount)});
    (Prog.seq (Prog.eval (toHex data.amount).isSome) <|
     Prog.seq (Prog.eval ((toHex data.amount).bind (fun amount =>
       encode L (transferCall data.target amount))).isSome) <|
     -- lines 125-128: if (hasValidMessage) { errorCallback(...); return; }
     Prog.ite (hasValidMessage data.message)
       (Prog.seq (Prog.call (Call.errorCallback noAttachment)) Prog.ret) Prog.skip)) <|
  -- lines 134-138: new EthTx(txParams); tx.sign(...); tx.serialize();
  Prog.seq (Prog.call Call.toSigner) <|
  Prog.seq (Prog.eval
    (match transactionParams L data with
      | Step.ok p => (L.signSerialize p data.privateKey).isSome
      | _ => false)) <|
  -- line 140: dataCallback(rawTx);
  Prog.call Call.dataCallback

/-! ## Sample calls of `encode` -/

/-- The address `0x00000000000000000000000000000000000000aa`. -/
def sampleAddress : String := "0x00000000000000000000000000000000000000aa"

/-- The address `sampleAddress` as the ABI writes it, left-padded with zeros
to 32 bytes. -/
def sampleAddressWord : String :=
  "00000000000000000000000000000000000000000000000000000000000000aa"

/-- The values of the npm library `ethereumjs-abi` at two calls; every other
call is left out (`none`). For `transfer(address,uint256):(bool)` with the
sample address and the number `100`: the selector `a9059cbb`, the address in
32 bytes and `100` as a 32-byte integer. For `setApprovalForAll(address,bool)`
with the sample address and `undefined`: the selector `a22cb465`, the address
in 32 bytes and 32 zero bytes, because the library encodes a `bool` argument
`arg` as the integer `arg ? 1 : 0`. -/
def abiLibs : Libs where
  simpleEncode := fun f args =>
    if f = "transfer(address,uint256):(bool)" ∧
        args = [JSVal.str sampleAddress, JSVal.num "100"] then
      some ("a9059cbb" ++ sampleAddressWord ++
        "0000000000000000000000000000000000000000000000000000000000000064")
    else if f = "setApprovalForAll(address,bool)" ∧
        args = [JSVal.str sampleAddress, JSVal.undefined] then
      some ("a22cb465" ++ sampleAddressWord ++
        "0000000000000000000000000000000000000000000000000000000000000000")
    else none
  signSerialize := fun _ _ => none

/-- The call of the specification's example,
`{func: 'transfer(address,uint256):(bool)', vars: ['target', 'amount'],
amount: 100, target: A}`, with the amount written before the target. -/
def transferExampleCall : CallData :=
  { func := "transfer(address,uint256):(bool)", vars := ["target", "amount"]
    props := [("amount", JSVal.num "100"), ("target", JSVal.str sampleAddress)]
    identifiers := by decide }

/-- A call of `setApprovalForAll(address,bool)` whose object lacks the
property `approved`. -/
def approvalCall : CallData :=
  { func := "setApprovalForAll(address,bool)", vars := ["operator", "approved"]
    props := [("operator", JSVal.str sampleAddress)]
    identifiers := by decide }

/-- A call that lists the name `toString`, which its object does not have as
a property of its own. -/
def inheritedNameCall : CallData :=
  { func := "transfer(address,uint256):(bool)", vars := ["target", "toString"]
    props := [("target", JSVal.str sampleAddress)], identifiers := by decide }

/-! # Lemmas -/

/-! ## Digit counts -/

theorem numDigitsAux_zero (b fuel : Nat) : numDigitsAux b fuel 0 = 0 := by
  cases fuel <;> simp [numDigitsAux]

theorem numDigitsAux_eq_log (b : Nat) (hb : 1 < b) :
    ∀ fuel n, n ≤ fuel → 0 < n → numDigitsAux b fuel n = Nat.log b n + 1 := by
  intro fuel
  induction fuel with
  | zero => intro n h1 h2; omega
  | succ fuel ih =>
    intro n hle hpos
    have hn : n ≠ 0 := by omega
    simp only [numDigitsAux, hn, if_false]
    by_cases hlt : n < b
    · rw [Nat.div_eq_of_lt hlt, numDigitsAux_zero, Nat.log_of_lt hlt]
    · have hbn : b ≤ n := by omega
      have hdpos : 0 < n / b := Nat.div_pos hbn (by omega)
      have hdlt : n / b < n := Nat.div_lt_self hpos hb
      rw [ih (n / b) (by omega) hdpos, Nat.log_of_one_lt_of_le hb hbn]

theorem numDigits_eq_log (b n : Nat) (hb : 1 < b) (hn : 0 < n) :
    numDigits b n = Nat.log b n + 1 :=
  numDigitsAux_eq_log b hb n n (le_refl n) hn

theorem numDigits_zero (b : Nat) : numDigits b 0 = 0 := by
  simp [numDigits, numDigitsAux]

theorem lt_pow_numDigits (b n : Nat) (hb : 1 < b) : n < b ^ numDigits b n := by
  rcases Nat.eq_zero_or_pos n with h | h
  · subst h; simp [numDigits_zero]
  · rw [numDigits_eq_log b n hb h]; exact Nat.lt_pow_succ_log_self hb n

theorem pow_numDigits_le (b n : Nat) (hb : 1 < b) (hn : 0 < n) :
    b ^ (numDigits b n - 1) ≤ n := by
  rw [numDigits_eq_log b n hb hn]
  simpa using Nat.pow_log_le_self b (by omega : n ≠ 0)

theorem numDigits_mul_pow (b n k : Nat) (hb : 1 < b) (hn : 0 < n) :
    numDigits b (n * b ^ k) = numDigits b n + k := by
  induction k with
  | zero => simp
  | succ k ih =>
    have hpos : 0 < n * b ^ k := Nat.mul_pos hn (Nat.pow_pos (by omega))
    rw [numDigits_eq_log b _ hb (Nat.mul_pos hn (Nat.pow_pos (by omega)))]
    rw [numDigits_eq_log b _ hb hpos] at ih
    rw [pow_succ, ← Nat.mul_assoc, Nat.log_mul_base hb (by omega), ih]
    omega

theorem numDigits_pow (b k : Nat) (hb : 1 < b) : numDigits b (b ^ k) = k + 1 := by
  rw [numDigits_eq_log b _ hb (Nat.pow_pos (by omega)), Nat.log_pow hb]

/-! ## Trailing zeros -/

theorem stripZeros_mul_pow (b c s e : Nat) (hb : 1 < b) :
    stripZeros b (c * b ^ e) (s + e) = stripZeros b c s := by
  induction e with
  | zero => simp
  | succ e ih =>
    have h1 : c * b ^ (e + 1) % b = 0 := by
      rw [pow_succ, ← Nat.mul_assoc]; exact Nat.mul_mod_left _ _
    have h2 : c * b ^ (e + 1) / b = c * b ^ e := by
      rw [pow_succ, ← Nat.mul_assoc]; exact Nat.mul_div_cancel _ (by omega)
    rw [← Nat.add_assoc]
    simp only [stripZeros, h1, if_true, h2]
    exact ih

theorem roundHalfUp_stripZeros (c s : Nat) :
    roundHalfUp (stripZeros 10 c s).1 (stripZeros 10 c s).2 = roundHalfUp c s := by
  induction s generalizing c with
  | zero => simp [stripZeros]
  | succ s ih =>
    simp only [stripZeros]
    split
    · rename_i h
      rw [ih]
      unfold roundHalfUp
      obtain ⟨k, hk⟩ : ∃ k, c = 10 * k := ⟨c / 10, by omega⟩
      subst hk
      have : 10 * k / 10 = k := by omega
      rw [this, pow_succ]
      have e1 : 2 * (10 * k) + 10 ^ s * 10 = 10 * (2 * k + 10 ^ s) := by ring
      have e2 : 2 * (10 ^ s * 10) = 10 * (2 * 10 ^ s) := by ring
      rw [e1, e2, Nat.mul_div_mul_left _ _ (by norm_num : 0 < 10)]
    · rfl

/-! ## Rounding to significant digits -/

theorem sigRound_exact (b n s : Nat) (hb : 1 < b) (hn : 0 < n)
    (hd : numDigits b n ≤ precision) : sigRound b n (b ^ s) = stripZeros b n s := by
  have hb0 : 0 < b := by omega
  have hn0 : n ≠ 0 := by omega
  have hnd : 1 ≤ numDigits b n := by rw [numDigits_eq_log b n hb hn]; omega
  obtain ⟨e, he⟩ : ∃ e, precision = numDigits b n + e := ⟨precision - numDigits b n, by omega⟩
  have hK : numDigits b (b ^ s) + precision = s + (numDigits b n + 1) + e := by
    rw [numDigits_pow b s hb, he]; omega
  have hQ : n * b ^ (s + (numDigits b n + 1) + e) / b ^ s = n * b ^ (numDigits b n + 1 + e) := by
    rw [show s + (numDigits b n + 1) + e = (numDigits b n + 1 + e) + s by omega, pow_add,
      ← Nat.mul_assoc]
    exact Nat.mul_div_cancel _ (Nat.pow_pos hb0)
  have hdrop : numDigits b (n * b ^ (numDigits b n + 1 + e)) - precision = numDigits b n + 1 := by
    rw [numDigits_mul_pow b n _ hb hn, he]; omega
  have hm : (2 * n * b ^ (s + (numDigits b n + 1) + e) + b ^ s * b ^ (numDigits b n + 1)) /
      (2 * b ^ s * b ^ (numDigits b n + 1)) = n * b ^ e := by
    have hX : 0 < b ^ s * b ^ (numDigits b n + 1) :=
      Nat.mul_pos (Nat.pow_pos hb0) (Nat.pow_pos hb0)
    have e1 : 2 * n * b ^ (s + (numDigits b n + 1) + e) + b ^ s * b ^ (numDigits b n + 1) =
        b ^ s * b ^ (numDigits b n + 1) + (2 * (b ^ s * b ^ (numDigits b n + 1))) * (n * b ^ e) := by
      rw [pow_add, pow_add]; ring
    have e2 : 2 * b ^ s * b ^ (numDigits b n + 1) = 2 * (b ^ s * b ^ (numDigits b n + 1)) := by
      ring
    rw [e1, e2, Nat.add_mul_div_left _ _ (by omega), Nat.div_eq_of_lt (by omega)]
    simp
  unfold sigRound
  simp only [hn0, if_false, hK, hQ, hdrop, hm]
  split
  · rename_i h
    have hs : s = 0 := by omega
    have he0 : e = 0 := by omega
    subst hs; subst he0
    simp [stripZeros]
  · have : s + (numDigits b n + 1) + e - (numDigits b n + 1) = s + e := by omega
    rw [this]
    exact stripZeros_mul_pow b n s e hb

theorem halfUp_rescale (N D T : Nat) (hD : 0 < D) (hDT : D < T) (hT : 2 ∣ T) :
    (2 * ((2 * N * T + D) / (2 * D)) + T) / (2 * T) = (2 * N + D) / (2 * D) := by
  obtain ⟨H, rfl⟩ := hT
  have hH : 0 < H := by omega
  set R := (2 * N + D) / (2 * D) with hR
  set m := (2 * N * (2 * H) + D) / (2 * D) with hm
  have hR1 : 2 * D * R ≤ 2 * N + D := Nat.mul_div_le _ _
  have hR2 : 2 * N + D < 2 * D * (R + 1) := Nat.lt_mul_div_succ _ (by omega)
  have hm1 : 2 * D * m ≤ 2 * N * (2 * H) + D := Nat.mul_div_le _ _
  have hm2 : 2 * N * (2 * H) + D < 2 * D * (m + 1) := Nat.lt_mul_div_succ _ (by omega)
  apply Nat.div_eq_of_lt_le
  · -- R * (2 * (2 * H)) ≤ 2 * m + 2 * H
    by_contra hcon
    push_neg at hcon
    have h3 : m + H + 1 ≤ 2 * H * R := by nlinarith
    have h4 : 2 * D * (m + 1) ≤ 2 * D * (2 * H * R - H) := by
      apply Nat.mul_le_mul_left; omega
    have h5 : H ≤ 2 * H * R := by omega
    have h6 : 2 * D * (2 * H * R - H) + 2 * D * H = 2 * D * (2 * H * R) := by
      rw [← Nat.mul_add]; congr 1; omega
    nlinarith
  · -- 2 * m + 2 * H < (R + 1) * (2 * (2 * H))
    have h7 : 2 * N + D + 1 ≤ 2 * D * R + 2 * D := by nlinarith
    have h8 : 2 * D * m < 2 * D * (2 * H * R + H) := by nlinarith
    have h9 : m < 2 * H * R + H := Nat.lt_of_mul_lt_mul_left h8
    nlinarith

theorem sigRound_div (N D : Nat) (hN : 0 < N) (hD : 0 < D) (hb : N < 10 ^ 63) :
    roundHalfUp (sigRound 10 N D).1 (sigRound 10 N D).2 = (2 * N + D) / (2 * D) := by
  have hN0 : N ≠ 0 := by omega
  set K := numDigits 10 D + precision with hK
  set Q := N * 10 ^ K / D with hQ
  set drop := numDigits 10 Q - precision with hdrop
  have hDlt : D < 10 ^ numDigits 10 D := lt_pow_numDigits 10 D (by norm_num)
  have hQge : 10 ^ precision ≤ Q := by
    rw [hQ, Nat.le_div_iff_mul_le hD, hK, pow_add]
    have : 10 ^ precision * D ≤ 10 ^ precision * 10 ^ numDigits 10 D :=
      Nat.mul_le_mul_left _ (le_of_lt hDlt)
    calc 10 ^ precision * D ≤ 10 ^ precision * 10 ^ numDigits 10 D := this
      _ = 1 * (10 ^ numDigits 10 D * 10 ^ precision) := by ring
      _ ≤ N * (10 ^ numDigits 10 D * 10 ^ precision) := Nat.mul_le_mul_right _ hN
  have hQpos : 0 < Q := lt_of_lt_of_le (Nat.pow_pos (by norm_num)) hQge
  have hndQ : precision + 1 ≤ numDigits 10 Q := by
    rw [numDigits_eq_log 10 Q (by norm_num) hQpos]
    have := Nat.le_log_of_pow_le (by norm_num : 1 < 10) hQge
    omega
  have hlow : 10 ^ (drop + 63) ≤ Q := by
    have := pow_numDigits_le 10 Q (by norm_num) hQpos
    have e : numDigits 10 Q - 1 = drop + 63 := by
      rw [hdrop]; unfold precision at *; omega
    rwa [e] at this
  have hDQ : D * Q ≤ N * 10 ^ K := Nat.mul_div_le _ _
  have h1 : D * 10 ^ (drop + 63) < 10 ^ 63 * 10 ^ K := by
    calc D * 10 ^ (drop + 63) ≤ D * Q := Nat.mul_le_mul_left _ hlow
      _ ≤ N * 10 ^ K := hDQ
      _ < 10 ^ 63 * 10 ^ K := Nat.mul_lt_mul_of_pos_right hb (Nat.pow_pos (by norm_num))
  have h2 : D * 10 ^ drop < 10 ^ K := by
    rw [pow_add] at h1
    have : 10 ^ 63 * (D * 10 ^ drop) < 10 ^ 63 * 10 ^ K := by
      calc 10 ^ 63 * (D * 10 ^ drop) = D * (10 ^ drop * 10 ^ 63) := by ring
        _ < 10 ^ 63 * 10 ^ K := h1
    exact Nat.lt_of_mul_lt_mul_left this
  have h3 : drop < K := by
    have : 10 ^ drop < 10 ^ K :=
      lt_of_le_of_lt (Nat.le_mul_of_pos_left _ hD) h2
    exact (Nat.pow_lt_pow_iff_right (by norm_num : 1 < 10)).mp this
  obtain ⟨t, ht⟩ : ∃ t, K = drop + (t + 1) := ⟨K - drop - 1, by omega⟩
  have hT : D < 10 ^ (t + 1) := by
    rw [ht, pow_add] at h2
    have : 10 ^ drop * D < 10 ^ drop * 10 ^ (t + 1) := by
      calc 10 ^ drop * D = D * 10 ^ drop := by ring
        _ < 10 ^ drop * 10 ^ (t + 1) := h2
    exact Nat.lt_of_mul_lt_mul_left this
  have hm : (2 * N * 10 ^ K + D * 10 ^ drop) / (2 * D * 10 ^ drop) =
      (2 * N * 10 ^ (t + 1) + D) / (2 * D) := by
    rw [ht, pow_add]
    have e1 : 2 * N * (10 ^ drop * 10 ^ (t + 1)) + D * 10 ^ drop =
        (2 * N * 10 ^ (t + 1) + D) * 10 ^ drop := by ring
    rw [e1]
    exact Nat.mul_div_mul_right _ _ (Nat.pow_pos (by norm_num))
  have hres : sigRound 10 N D =
      stripZeros 10 ((2 * N * 10 ^ (t + 1) + D) / (2 * D)) (t + 1) := by
    unfold sigRound
    simp only [hN0, if_false]
    rw [← hK, ← hQ, ← hdrop, hm, if_neg (by omega)]
    congr 1
    omega
  rw [hres, roundHalfUp_stripZeros]
  unfold roundHalfUp
  exact halfUp_rescale N D (10 ^ (t + 1)) hD hT (by rw [pow_succ]; exact ⟨10 ^ t * 5, by ring⟩)

/-! ## Numerals -/

theorem numeralVal_append (b : Nat) (l : List Char) (c : Char) :
    numeralVal b (l ++ [c]) = b * numeralVal b l + charVal c := by
  simp [numeralVal, List.foldl_append]

theorem charVal_digitChar (k : Nat) (hk : k < 16) : charVal (Nat.digitChar k) = k := by
  interval_cases k <;> rfl

theorem isDigit_digitChar (k : Nat) (hk : k < 10) : (Nat.digitChar k).isDigit = true := by
  interval_cases k <;> rfl

theorem isHexDigit_digitChar (k : Nat) (hk : k < 16) : isHexDigit (Nat.digitChar k) = true := by
  interval_cases k <;> rfl

theorem digitsAux_zero (b fuel : Nat) : digitsAux b fuel 0 = [] := by
  cases fuel <;> simp [digitsAux]

theorem digitsAux_lt (b : Nat) (hb : 0 < b) :
    ∀ fuel n, ∀ k ∈ digitsAux b fuel n, k < b := by
  intro fuel
  induction fuel with
  | zero => intro n k hk; simp [digitsAux] at hk
  | succ fuel ih =>
    intro n k hk
    simp only [digitsAux] at hk
    split at hk
    · simp at hk
    · rcases List.mem_append.mp hk with h | h
      · exact ih _ k h
      · simp at h; subst h; exact Nat.mod_lt _ hb

theorem numeralVal_digitsAux (b : Nat) (hb : 1 < b) (hb16 : b ≤ 16) :
    ∀ fuel n, n ≤ fuel → numeralVal b ((digitsAux b fuel n).map Nat.digitChar) = n := by
  intro fuel
  induction fuel with
  | zero => intro n hn; have : n = 0 := by omega
            subst this; simp [digitsAux, numeralVal]
  | succ fuel ih =>
    intro n hn
    simp only [digitsAux]
    split
    · rename_i h; subst h; simp [numeralVal]
    · rename_i h
      have hlt : n / b < n := Nat.div_lt_self (by omega) hb
      rw [List.map_append, List.map_singleton, numeralVal_append, ih (n / b) (by omega),
        charVal_digitChar _ (lt_of_lt_of_le (Nat.mod_lt _ (by omega)) hb16)]
      exact Nat.div_add_mod n b

theorem digitsAux_ne_nil (b fuel n : Nat) (hn : 0 < n) (hf : 0 < fuel) :
    digitsAux b fuel n ≠ [] := by
  cases fuel with
  | zero => omega
  | succ fuel => simp [digitsAux, Nat.ne_of_gt hn]

theorem numeralChars_ne_nil (b n : Nat) : numeralChars b n ≠ [] := by
  unfold numeralChars
  split
  · simp
  · rename_i h
    have := digitsAux_ne_nil b n n (by omega) (by omega)
    simpa [digitsBE] using this

theorem numeralVal_numeralChars (b n : Nat) (hb : 1 < b) (hb16 : b ≤ 16) :
    numeralVal b (numeralChars b n) = n := by
  unfold numeralChars
  split
  · rename_i h; subst h; simp [numeralVal, charVal]
  · exact numeralVal_digitsAux b hb hb16 n n (le_refl n)

theorem numeralChars_isDigit (n : Nat) : ∀ c ∈ numeralChars 10 n, c.isDigit = true := by
  intro c hc
  unfold numeralChars at hc
  split at hc
  · simp at hc; subst hc; rfl
  · obtain ⟨k, hk, rfl⟩ := List.mem_map.mp hc
    exact isDigit_digitChar k (digitsAux_lt 10 (by norm_num) n n k hk)

theorem numeralChars_isHexDigit (n : Nat) : ∀ c ∈ numeralChars 16 n, isHexDigit c = true := by
  intro c hc
  unfold numeralChars at hc
  split at hc
  · simp at hc; subst hc; rfl
  · obtain ⟨k, hk, rfl⟩ := List.mem_map.mp hc
    exact isHexDigit_digitChar k (digitsAux_lt 16 (by norm_num) n n k hk)

/-! ## The constructor on whole numerals -/

theorem parseDecimal_digits (ds : List Char) (hne : ds ≠ [])
    (hd : ∀ c ∈ ds, c.isDigit = true) : parseDecimal ds = some (numeralVal 10 ds, 0) := by
  have h1 : ds.takeWhile Char.isDigit = ds := List.takeWhile_eq_self_iff.mpr hd
  have h2 : ds.dropWhile Char.isDigit = [] := List.dropWhile_eq_nil_iff.mpr hd
  unfold parseDecimal
  simp [h1, h2, hne, parseExponent]

theorem readNumeral_digits (ds : List Char) (hne : ds ≠ [])
    (hd : ∀ c ∈ ds, c.isDigit = true) :
    readNumeral ds = some (Decimal.fin false (numeralVal 10 ds) 0) := by
  obtain ⟨c, r, rfl⟩ := List.exists_cons_of_ne_nil hne
  have hc : c.isDigit = true := hd c (List.mem_cons_self _ _)
  have hm : c ≠ '-' := by intro h; subst h; simp [Char.isDigit] at hc
  have hp : c ≠ '+' := by intro h; subst h; simp [Char.isDigit] at hc
  have hmatch : (match c :: r with
      | '-' :: r => (true, r)
      | '+' :: r => (false, r)
      | r => (false, r)) = (false, c :: r) := by
    split
    · rename_i h; simp at h; exact absurd h.1 hm
    · rename_i h; simp at h; exact absurd h.1 hp
    · rfl
  unfold readNumeral
  simp only [hmatch, parseDecimal_digits (c :: r) hne hd]

theorem readNumeral_signed_digits (ds : List Char) (hne : ds ≠ [])
    (hd : ∀ c ∈ ds, c.isDigit = true) :
    readNumeral ('-' :: ds) = some (Decimal.fin true (numeralVal 10 ds) 0) := by
  unfold readNumeral
  simp only [parseDecimal_digits ds hne hd]

theorem newDecimal_digits (ds : List Char) (hne : ds ≠ [])
    (hd : ∀ c ∈ ds, c.isDigit = true) :
    newDecimal (JSVal.str (String.mk ds)) = some (Decimal.fin false (numeralVal 10 ds) 0) :=
  readNumeral_digits ds hne hd

theorem newDecimal_num_digits (ds : List Char) (hne : ds ≠ [])
    (hd : ∀ c ∈ ds, c.isDigit = true) :
    newDecimal (JSVal.num (String.mk ds)) = some (Decimal.fin false (numeralVal 10 ds) 0) :=
  readNumeral_digits ds hne hd

/-! ## Conversions of whole numbers -/

theorem newDecimal_signed_digits (ds : List Char) (hne : ds ≠ [])
    (hd : ∀ c ∈ ds, c.isDigit = true) :
    newDecimal (JSVal.str ("-" ++ String.mk ds)) =
      some (Decimal.fin true (numeralVal 10 ds) 0) := by
  have hl : ("-" ++ String.mk ds).toList = '-' :: ds := by
    simp [String.toList, String.data_append]
  show readNumeral ("-" ++ String.mk ds).toList = _
  rw [hl]
  exact readNumeral_signed_digits ds hne hd

theorem newDecimal_toFixed0 (d : Decimal) :
    newDecimal (JSVal.str d.toFixed0) =
      some (match d with
        | Decimal.nan => Decimal.nan
        | Decimal.inf neg => Decimal.inf neg
        | Decimal.fin neg c s =>
          Decimal.fin (neg && decide (c ≠ 0)) (roundHalfUp c s) 0) := by
  cases d with
  | nan => decide
  | inf neg => cases neg <;> decide
  | fin neg c s =>
    have hv := numeralVal_numeralChars 10 (roundHalfUp c s) (by norm_num) (by norm_num)
    have hne := numeralChars_ne_nil 10 (roundHalfUp c s)
    have hd := numeralChars_isDigit (roundHalfUp c s)
    simp only [Decimal.toFixed0, numeral]
    by_cases h : neg = true ∧ c ≠ 0
    · rw [if_pos h, newDecimal_signed_digits _ hne hd, hv]
      simp [h.1, h.2]
    · rw [if_neg h]
      have e : "" ++ String.mk (numeralChars 10 (roundHalfUp c s)) =
          String.mk (numeralChars 10 (roundHalfUp c s)) := by
        simp [String.ext_iff, String.data_append]
      rw [e, newDecimal_digits _ hne hd, hv]
      congr 2
      cases neg <;> simp_all

theorem toHex_of_newDecimal (v : JSVal) (d : Decimal) (h : newDecimal v = some d) :
    toHex v = some (if d.toHex ≠ "" then d.toHex else "0x0") := by
  simp [toHex, h]

theorem toHex_toFixed0_isSome (d : Decimal) :
    ∃ hx, toHex (JSVal.str d.toFixed0) = some hx :=
  ⟨_, toHex_of_newDecimal _ _ (newDecimal_toFixed0 d)⟩

theorem sigRound_hex_whole (n : Nat) (hn : n < 16 ^ 64) : sigRound 16 n 1 = (n, 0) := by
  rcases Nat.eq_zero_or_pos n with h | h
  · subst h; simp [sigRound]
  · have hd : numDigits 16 n ≤ precision := by
      rw [numDigits_eq_log 16 n (by norm_num) h]
      have := Nat.log_lt_of_lt_pow (by omega : n ≠ 0) hn
      unfold precision; omega
    have := sigRound_exact 16 n 0 (by norm_num) h hd
    simpa [stripZeros] using this

theorem toHex_whole (v : JSVal) (n : Nat) (h : newDecimal v = some (Decimal.fin false n 0))
    (hn : n < 16 ^ 64) : toHex v = some ("0x" ++ numeral 16 n) := by
  rw [toHex_of_newDecimal v _ h]
  have e : (Decimal.fin false n 0).toHex = "0x" ++ numeral 16 n := by
    simp only [Decimal.toHex, pow_zero, sigRound_hex_whole n hn, hexBody]
    simp [String.ext_iff, String.data_append]
  rw [e]
  have hne : "0x" ++ numeral 16 n ≠ "" := by
    simp [String.ext_iff, String.data_append]
  simp [hne]

/-! ## The transaction builder -/

theorem transactionParams_ok_inv (L : Libs) (data : TxData) (p : TxParams)
    (h : transactionParams L data = Step.ok p) :
    ∃ u F B G D v, data.unspent = some u ∧ newDecimal data.fee = some F ∧
      newDecimal u.gasBaseFee = some B ∧ newDecimal u.gasLimit = some G ∧
      newDecimal u.gasDataFee = some D ∧ toHex u.nonce = some p.nonce ∧
      toHex (JSVal.str (gasPriceOf F B D).toFixed0) = some p.gasPrice ∧
      toHex (JSVal.str G.toFixed0) = some p.gasLimit ∧ toHex data.amount = some v ∧
      ((data.mode ≠ JSVal.str "token" ∧ p.to_ = data.target ∧ p.value = v ∧
          p.data = (if hasValidMessage data.message then some data.message else none)) ∨
        (data.mode = JSVal.str "token" ∧ hasValidMessage data.message = false ∧
          p.to_ = data.contract ∧ p.value = "0x0" ∧
          ∃ enc, encode L (transferCall data.target v) = some enc ∧
            p.data = some (JSVal.str enc))) := by
  unfold transactionParams at h
  rcases hF : newDecimal data.fee with _ | F
  · simp only [hF] at h; cases h
  rcases hu : data.unspent with _ | u
  · simp only [hF, hu] at h; cases h
  rcases hB : newDecimal u.gasBaseFee with _ | B
  · simp only [hF, hu, hB] at h; cases h
  rcases hG : newDecimal u.gasLimit with _ | G
  · simp only [hF, hu, hB, hG] at h; cases h
  rcases hD : newDecimal u.gasDataFee with _ | D
  · simp only [hF, hu, hB, hG, hD] at h; cases h
  rcases hn : toHex u.nonce with _ | nonce
  · simp only [hF, hu, hB, hG, hD, hn] at h; cases h
  rcases hgp : toHex (JSVal.str (gasPriceOf F B D).toFixed0) with _ | gp
  · simp only [hF, hu, hB, hG, hD, hn, hgp] at h; cases h
  rcases hgl : toHex (JSVal.str G.toFixed0) with _ | gl
  · simp only [hF, hu, hB, hG, hD, hn, hgp, hgl] at h; cases h
  rcases hv : toHex data.amount with _ | v
  · simp only [hF, hu, hB, hG, hD, hn, hgp, hgl, hv] at h
    split at h <;> cases h
  simp only [hF, hu, hB, hG, hD, hn, hgp, hgl, hv] at h
  refine ⟨u, F, B, G, D, v, rfl, rfl, hB, hG, hD, ?_⟩
  by_cases hm : data.mode ≠ JSVal.str "token"
  · rw [if_pos hm] at h
    cases h
    exact ⟨hn, hgp, hgl, rfl, Or.inl ⟨hm, rfl, rfl, rfl⟩⟩
  · rw [if_neg hm] at h
    rcases he : encode L (transferCall data.target v) with _ | enc
    · simp only [he] at h; cases h
    · simp only [he] at h
      by_cases hmsg : hasValidMessage data.message = true
      · rw [if_pos hmsg] at h; cases h
      · rw [if_neg hmsg] at h
        cases h
        exact ⟨hn, hgp, hgl, rfl,
          Or.inr ⟨not_not.mp hm, by simpa using hmsg, rfl, rfl, enc, rfl, rfl⟩⟩

theorem transactionParams_native (L : Libs) (data : TxData) (u : Unspent) (F B G D : Decimal)
    (nonce gp gl v : String) (hu : data.unspent = some u) (hF : newDecimal data.fee = some F)
    (hB : newDecimal u.gasBaseFee = some B) (hG : newDecimal u.gasLimit = some G)
    (hD : newDecimal u.gasDataFee = some D) (hn : toHex u.nonce = some nonce)
    (hgp : toHex (JSVal.str (gasPriceOf F B D).toFixed0) = some gp)
    (hgl : toHex (JSVal.str G.toFixed0) = some gl) (hv : toHex data.amount = some v)
    (hm : data.mode ≠ JSVal.str "token") :
    transactionParams L data =
      Step.ok { nonce := nonce, gasPrice := gp, gasLimit := gl, to_ := data.target, value := v
                data := if hasValidMessage data.message then some data.message else none } := by
  unfold transactionParams
  simp only [hF, hu, hB, hG, hD, hn, hgp, hgl, hv, if_pos hm]

theorem transactionParams_token (L : Libs) (data : TxData) (u : Unspent) (F B G D : Decimal)
    (nonce gp gl v enc : String) (hu : data.unspent = some u)
    (hF : newDecimal data.fee = some F)
    (hB : newDecimal u.gasBaseFee = some B) (hG : newDecimal u.gasLimit = some G)
    (hD : newDecimal u.gasDataFee = some D) (hn : toHex u.nonce = some nonce)
    (hgp : toHex (JSVal.str (gasPriceOf F B D).toFixed0) = some gp)
    (hgl : toHex (JSVal.str G.toFixed0) = some gl) (hv : toHex data.amount = some v)
    (hm : data.mode = JSVal.str "token")
    (he : encode L (transferCall data.target v) = some enc) :
    transactionParams L data =
      if hasValidMessage data.message then Step.reported noAttachment
      else Step.ok { nonce := nonce, gasPrice := gp, gasLimit := gl, to_ := data.contract
                     value := "0x0", data := some (JSVal.str enc) } := by
  unfold transactionParams
  simp only [hF, hu, hB, hG, hD, hn, hgp, hgl, hv, hm, he, ne_eq, not_true_eq_false, if_false]

theorem transactionParams_reported (L : Libs) (data : TxData) (msg : String)
    (h : transactionParams L data = Step.reported msg) :
    (msg = missingUnspent ∧ data.unspent = none) ∨
      (msg = noAttachment ∧ data.mode = JSVal.str "token" ∧
        hasValidMessage data.message = true) := by
  unfold transactionParams at h
  rcases hF : newDecimal data.fee with _ | F
  · simp only [hF] at h; cases h
  rcases hu : data.unspent with _ | u
  · simp only [hF, hu] at h; cases h; exact Or.inl ⟨rfl, rfl⟩
  simp only [hF, hu] at h
  repeat' split at h
  all_goals first
    | (cases h; done)
    | (cases h; right; simp_all)

theorem transaction_error_inv (L : Libs) (data : TxData) (msg : String)
    (h : transaction L data = Outcome.error msg) :
    (msg = missingUnspent ∧ data.unspent = none) ∨
      (msg = noAttachment ∧ data.mode = JSVal.str "token" ∧
        hasValidMessage data.message = true) := by
  unfold transaction at h
  rcases hstep : transactionParams L data with p | m | _
  · rw [hstep] at h
    simp only at h
    split at h <;> cases h
  · rw [hstep] at h
    simp only at h
    cases h
    exact transactionParams_reported L data msg hstep
  · rw [hstep] at h; cases h

theorem halfUp_quotient_lt (fee s : Nat) (hs : 0 < s) (hfee : fee < 10 ^ 63) :
    (2 * fee + s) / (2 * s) < 16 ^ 64 := by
  have h1 : (2 * fee + s) / (2 * s) ≤ fee + 1 := by
    rw [Nat.div_le_iff_le_mul_add_pred (by omega)]
    nlinarith
  have h2 : fee + 1 < 16 ^ 64 := by
    have : (10 : Nat) ^ 63 < 16 ^ 64 := by norm_num
    omega
  omega

theorem gasPrice_of_rate (L : Libs) (data : TxData) (u : Unspent) (F B D : Decimal)
    (p : TxParams) (rate : Nat) (hu : data.unspent = some u)
    (hF : newDecimal data.fee = some F) (hB : newDecimal u.gasBaseFee = some B)
    (hD : newDecimal u.gasDataFee = some D) (hp : transactionParams L data = Step.ok p)
    (hrate : (gasPriceOf F B D).toFixed0 = numeral 10 rate) (hlt : rate < 16 ^ 64) :
    p.gasPrice = "0x" ++ numeral 16 rate := by
  obtain ⟨u', F', B', G, D', v, hu', hF', hB', _, hD', _, hgp, _⟩ :=
    transactionParams_ok_inv L data p hp
  rw [hu] at hu'; cases hu'
  rw [hF] at hF'; cases hF'
  rw [hB] at hB'; cases hB'
  rw [hD] at hD'; cases hD'
  rw [hrate] at hgp
  have hnum := newDecimal_digits _ (numeralChars_ne_nil 10 rate) (numeralChars_isDigit rate)
  rw [numeralVal_numeralChars 10 _ (by norm_num) (by norm_num)] at hnum
  have := toHex_whole _ _ hnum hlt
  unfold numeral at hgp
  rw [this] at hgp
  exact (Option.some.inj hgp).symm

/-! ## Exact arithmetic on decimals -/

theorem stripZeros_value (b c s : Nat) :
    (stripZeros b c s).1 * b ^ (s - (stripZeros b c s).2) = c ∧ (stripZeros b c s).2 ≤ s := by
  induction s generalizing c with
  | zero => simp [stripZeros]
  | succ s ih =>
    simp only [stripZeros]
    split
    · rename_i h
      obtain ⟨h1, h2⟩ := ih (c / b)
      refine ⟨?_, by omega⟩
      have e : s + 1 - (stripZeros b (c / b) s).2 = (s - (stripZeros b (c / b) s).2) + 1 := by
        omega
      rw [e, pow_succ, ← Nat.mul_assoc, h1]
      exact Nat.div_mul_cancel (Nat.dvd_of_mod_eq_zero h)
    · simp

theorem roundFin_exact (neg : Bool) (m S : Nat) (hm : 0 < m) (hlt : m < 10 ^ 64) :
    roundFin neg m S = Decimal.fin neg (stripZeros 10 m S).1 (stripZeros 10 m S).2 := by
  unfold roundFin
  have hd : numDigits 10 m ≤ precision := by
    rw [numDigits_eq_log 10 m (by norm_num) hm]
    have := Nat.log_lt_of_lt_pow (by omega : m ≠ 0) hlt
    unfold precision; omega
  rw [sigRound_exact 10 m S (by norm_num) hm hd]

theorem plus_fin (n1 : Bool) (c1 s1 : Nat) (n2 : Bool) (c2 s2 : Nat)
    (hpos : 0 < scaledSum n1 c1 s1 n2 c2 s2) (hlt : scaledSum n1 c1 s1 n2 c2 s2 < 10 ^ 64) :
    (Decimal.fin n1 c1 s1).plus (Decimal.fin n2 c2 s2) =
      Decimal.fin false
        (stripZeros 10 (scaledSum n1 c1 s1 n2 c2 s2).toNat (max s1 s2)).1
        (stripZeros 10 (scaledSum n1 c1 s1 n2 c2 s2).toNat (max s1 s2)).2 := by
  unfold Decimal.plus
  unfold scaledSum at hpos hlt ⊢
  simp only []
  generalize c1 * 10 ^ (max s1 s2 - s1) = a at hpos hlt ⊢
  generalize c2 * 10 ^ (max s1 s2 - s2) = b at hpos hlt ⊢
  cases n1 <;> cases n2 <;>
    simp only [signedVal, Bool.false_eq_true, if_true, if_false] at hpos hlt ⊢
  · have e : ((a : Int) + (b : Int)).toNat = a + b := by omega
    simp only [e]
    exact roundFin_exact _ _ _ (by omega) (by omega)
  · have e : ((a : Int) + -(b : Int)).toNat = a - b := by omega
    have h1 : b < a := by omega
    have h2 : a ≠ b := by omega
    simp only [e, h1, h2, if_true, if_false, reduceCtorEq]
    exact roundFin_exact _ _ _ (by omega) (by omega)
  · have e : (-(a : Int) + (b : Int)).toNat = b - a := by omega
    have h1 : ¬ b < a := by omega
    have h2 : a ≠ b := by omega
    simp only [e, h1, h2, if_false, reduceCtorEq]
    exact roundFin_exact _ _ _ (by omega) (by omega)
  · omega

theorem dividedBy_fin (cf sf c2 s2 : Nat) (hc2 : 0 < c2) (hN : cf * 10 ^ s2 < 10 ^ 63) :
    ((Decimal.fin false cf sf).dividedBy (Decimal.fin false c2 s2)).toFixed0 =
      numeral 10 ((2 * (cf * 10 ^ s2) + c2 * 10 ^ sf) / (2 * (c2 * 10 ^ sf))) := by
  unfold Decimal.dividedBy
  have hc0 : c2 ≠ 0 := by omega
  have hD : 0 < c2 * 10 ^ sf := Nat.mul_pos hc2 (Nat.pow_pos (by norm_num))
  simp only [hc0, if_false]
  rcases Nat.eq_zero_or_pos cf with h | h
  · subst h
    have : (2 * (0 * 10 ^ s2) + c2 * 10 ^ sf) / (2 * (c2 * 10 ^ sf)) = 0 :=
      Nat.div_eq_of_lt (by omega)
    rw [this]
    simp [Decimal.toFixed0, roundHalfUp]
  · have hf0 : cf ≠ 0 := by omega
    simp only [hf0, if_false, Decimal.toFixed0]
    rw [sigRound_div (cf * 10 ^ s2) (c2 * 10 ^ sf)
      (Nat.mul_pos h (Nat.pow_pos (by norm_num))) hD hN]
    simp

theorem gasPriceOf_fin (cf sf : Nat) (n1 : Bool) (c1 s1 : Nat) (n2 : Bool) (c2 s2 : Nat)
    (hpos : 0 < scaledSum n1 c1 s1 n2 c2 s2) (hlt : scaledSum n1 c1 s1 n2 c2 s2 < 10 ^ 64)
    (hfee : cf * 10 ^ (max s1 s2) < 10 ^ 63) :
    (gasPriceOf (Decimal.fin false cf sf) (Decimal.fin n1 c1 s1)
        (Decimal.fin n2 c2 s2)).toFixed0 =
      numeral 10 ((2 * (cf * 10 ^ (max s1 s2)) +
          (scaledSum n1 c1 s1 n2 c2 s2).toNat * 10 ^ sf) /
        (2 * ((scaledSum n1 c1 s1 n2 c2 s2).toNat * 10 ^ sf))) := by
  unfold gasPriceOf
  rw [plus_fin n1 c1 s1 n2 c2 s2 hpos hlt]
  generalize hz : (scaledSum n1 c1 s1 n2 c2 s2).toNat = σ
  have hσ : 0 < σ := by omega
  generalize hS : max s1 s2 = S at hfee ⊢
  obtain ⟨hv, hle⟩ := stripZeros_value 10 σ S
  generalize (stripZeros 10 σ S).1 = c at hv ⊢
  generalize (stripZeros 10 σ S).2 = s at hv hle ⊢
  obtain ⟨e, rfl⟩ : ∃ e, S = s + e := ⟨S - s, by omega⟩
  have he : s + e - s = e := by omega
  rw [he] at hv
  have hc : 0 < c := by
    rcases Nat.eq_zero_or_pos c with h | h
    · subst h; simp at hv; omega
    · exact h
  have hN : cf * 10 ^ s < 10 ^ 63 := by
    have : cf * 10 ^ s ≤ cf * 10 ^ (s + e) :=
      Nat.mul_le_mul_left _ (Nat.pow_le_pow_right (by norm_num) (by omega))
    omega
  rw [dividedBy_fin cf sf c s hc hN]
  congr 1
  have e1 : 2 * (cf * 10 ^ (s + e)) + σ * 10 ^ sf =
      (2 * (cf * 10 ^ s) + c * 10 ^ sf) * 10 ^ e := by
    rw [← hv, pow_add]; ring
  have e2 : 2 * (σ * 10 ^ sf) = 2 * (c * 10 ^ sf) * 10 ^ e := by
    rw [← hv]; ring
  rw [e1, e2, Nat.mul_div_mul_right _ _ (Nat.pow_pos (by norm_num))]

theorem halfUp_rat (N D : Nat) (hD : 0 < D) :
    (((2 * N + D) / (2 * D) : Nat) : ℚ) - 1 / 2 ≤ (N : ℚ) / (D : ℚ) ∧
      (N : ℚ) / (D : ℚ) < (((2 * N + D) / (2 * D) : Nat) : ℚ) + 1 / 2 := by
  have h1 := Nat.div_mul_le_self (2 * N + D) (2 * D)
  have h2 := Nat.lt_mul_div_succ (2 * N + D) (by omega : 0 < 2 * D)
  generalize (2 * N + D) / (2 * D) = r at h1 h2
  have hDq : (0 : ℚ) < (D : ℚ) := by exact_mod_cast hD
  have h1q : (r : ℚ) * (2 * D) ≤ 2 * N + D := by exact_mod_cast h1
  have h2q : (2 * N + D : ℚ) < 2 * D * (r + 1) := by exact_mod_cast h2
  constructor
  · rw [le_div_iff₀ hDq]; nlinarith
  · rw [div_lt_iff₀ hDq]; nlinarith

theorem toRat_quotient (cf sf : Nat) (n1 : Bool) (c1 s1 : Nat) (n2 : Bool) (c2 s2 : Nat)
    (hpos : 0 < scaledSum n1 c1 s1 n2 c2 s2) :
    0 < (Decimal.fin n1 c1 s1).toRat + (Decimal.fin n2 c2 s2).toRat ∧
      (Decimal.fin false cf sf).toRat /
          ((Decimal.fin n1 c1 s1).toRat + (Decimal.fin n2 c2 s2).toRat) =
        ((cf * 10 ^ (max s1 s2) : Nat) : ℚ) /
          (((scaledSum n1 c1 s1 n2 c2 s2).toNat * 10 ^ sf : Nat) : ℚ) := by
  have hsum : (Decimal.fin n1 c1 s1).toRat + (Decimal.fin n2 c2 s2).toRat =
      ((scaledSum n1 c1 s1 n2 c2 s2 : Int) : ℚ) / 10 ^ (max s1 s2) := by
    have p1 : (10 : ℚ) ^ (max s1 s2) = 10 ^ (max s1 s2 - s1) * 10 ^ s1 := by
      rw [← pow_add]; congr 1; omega
    have p2 : (10 : ℚ) ^ (max s1 s2) = 10 ^ (max s1 s2 - s2) * 10 ^ s2 := by
      rw [← pow_add]; congr 1; omega
    have hz1 : (10 : ℚ) ^ s1 ≠ 0 := by positivity
    have hz2 : (10 : ℚ) ^ s2 ≠ 0 := by positivity
    have hz : (10 : ℚ) ^ (max s1 s2) ≠ 0 := by positivity
    unfold scaledSum
    rw [eq_div_iff hz]
    cases n1 <;> cases n2 <;>
      simp only [Decimal.toRat, signedVal, Bool.false_eq_true, if_true, if_false] <;>
      push_cast <;>
      · rw [add_mul]
        congr 1
        · rw [p1]; field_simp; ring
        · rw [p2]; field_simp; ring
  have hzpos : (0 : ℚ) < ((scaledSum n1 c1 s1 n2 c2 s2 : Int) : ℚ) := by exact_mod_cast hpos
  have hcast : (((scaledSum n1 c1 s1 n2 c2 s2).toNat : Nat) : ℚ) =
      ((scaledSum n1 c1 s1 n2 c2 s2 : Int) : ℚ) := by
    have : (((scaledSum n1 c1 s1 n2 c2 s2).toNat : Nat) : Int) = scaledSum n1 c1 s1 n2 c2 s2 :=
      Int.toNat_of_nonneg (le_of_lt hpos)
    exact_mod_cast this
  constructor
  · rw [hsum]; positivity
  · rw [hsum]
    simp only [Decimal.toRat, Bool.false_eq_true, if_false]
    push_cast
    rw [hcast]
    field_simp
    left; ring

theorem feeRate_rat (cf sf : Nat) (n1 : Bool) (c1 s1 : Nat) (n2 : Bool) (c2 s2 : Nat)
    (hpos : 0 < scaledSum n1 c1 s1 n2 c2 s2) (hlt : scaledSum n1 c1 s1 n2 c2 s2 < 10 ^ 64)
    (hfee : cf * 10 ^ (max s1 s2) < 10 ^ 63) :
    ∃ rate : Nat,
      (gasPriceOf (Decimal.fin false cf sf) (Decimal.fin n1 c1 s1)
        (Decimal.fin n2 c2 s2)).toFixed0 = numeral 10 rate ∧
      rate < 16 ^ 64 ∧
      0 < (Decimal.fin n1 c1 s1).toRat + (Decimal.fin n2 c2 s2).toRat ∧
      (rate : ℚ) - 1 / 2 ≤ (Decimal.fin false cf sf).toRat /
        ((Decimal.fin n1 c1 s1).toRat + (Decimal.fin n2 c2 s2).toRat) ∧
      (Decimal.fin false cf sf).toRat /
        ((Decimal.fin n1 c1 s1).toRat + (Decimal.fin n2 c2 s2).toRat) < (rate : ℚ) + 1 / 2 := by
  have hD : 0 < (scaledSum n1 c1 s1 n2 c2 s2).toNat * 10 ^ sf :=
    Nat.mul_pos (by omega) (Nat.pow_pos (by norm_num))
  obtain ⟨hs, hq⟩ := toRat_quotient cf sf n1 c1 s1 n2 c2 s2 hpos
  obtain ⟨h1, h2⟩ := halfUp_rat (cf * 10 ^ (max s1 s2))
    ((scaledSum n1 c1 s1 n2 c2 s2).toNat * 10 ^ sf) hD
  refine ⟨_, gasPriceOf_fin cf sf n1 c1 s1 n2 c2 s2 hpos hlt hfee,
    halfUp_quotient_lt _ _ hD hfee, hs, ?_, ?_⟩
  · rw [hq]; exact h1
  · rw [hq]; exact h2

/-! # Claims -/

/-! ## C1 -/

/-- C1, as stated, fails: with a fee of `10 ^ 64 + 1` and one unit of gas the
exact quotient is the whole number `10 ^ 64 + 1`, but the division keeps 64
significant digits and the fee rate is `10 ^ 64`. -/
theorem feeRate_not_exact_quotient :
    newDecimal bigFeeTx.fee = some (Decimal.fin false (10 ^ 64 + 1) 0) ∧
      (gasPriceOf (Decimal.fin false (10 ^ 64 + 1) 0) (Decimal.fin false 1 0)
        (Decimal.fin false 0 0)).toFixed0 = numeral 10 (10 ^ 64) ∧
      (2 * (10 ^ 64 + 1) + (1 + 0)) / (2 * (1 + 0)) = 10 ^ 64 + 1 ∧
      transactionParams acceptingLibs bigFeeTx =
        Step.ok
          { nonce := "0x5", gasPrice := "0x" ++ numeral 16 (10 ^ 64), gasLimit := "0x5208"
            to_ := JSVal.str "0xabc", value := "0xde0b6b3a7640000", data := none } := by
  refine ⟨by decide, by decide, by norm_num, by decide⟩

/-- C1 (amended): for non-negative decimals `fee`, `gasBaseFee` and
`gasDataFee` with a positive sum, within the precision of the decimal layer
(the sum of the gas fees, written at the larger of their two scales, is below
`10 ^ 64`, and the digits of the fee followed by that many zeros are below
`10 ^ 63`), the fee rate `gasPrice.toFixed(0)` is a whole number within one
half of the exact quotient `fee / (gasBaseFee + gasDataFee)`, a half going up,
written without fractional digits, and `txParams.gasPrice` is its hexadecimal
form. -/
theorem feeRate_nearest (L : Libs) (data : TxData) (u : Unspent)
    (cf sf cb sb cd sd : Nat) (hu : data.unspent = some u)
    (hF : newDecimal data.fee = some (Decimal.fin false cf sf))
    (hB : newDecimal u.gasBaseFee = some (Decimal.fin false cb sb))
    (hD : newDecimal u.gasDataFee = some (Decimal.fin false cd sd))
    (hpos : 0 < scaledSum false cb sb false cd sd)
    (hsum : scaledSum false cb sb false cd sd < 10 ^ 64)
    (hfee : cf * 10 ^ (max sb sd) < 10 ^ 63) :
    ∃ rate : Nat,
      (gasPriceOf (Decimal.fin false cf sf) (Decimal.fin false cb sb)
        (Decimal.fin false cd sd)).toFixed0 = numeral 10 rate ∧
      (rate : ℚ) - 1 / 2 ≤ (Decimal.fin false cf sf).toRat /
        ((Decimal.fin false cb sb).toRat + (Decimal.fin false cd sd).toRat) ∧
      (Decimal.fin false cf sf).toRat /
        ((Decimal.fin false cb sb).toRat + (Decimal.fin false cd sd).toRat) <
          (rate : ℚ) + 1 / 2 ∧
      ∀ p, transactionParams L data = Step.ok p → p.gasPrice = "0x" ++ numeral 16 rate := by
  obtain ⟨rate, hrate, hlt, _, h1, h2⟩ := feeRate_rat cf sf false cb sb false cd sd hpos hsum hfee
  exact ⟨rate, hrate, h1, h2, fun p hp =>
    gasPrice_of_rate L data u _ _ _ p rate hu hF hB hD hp hrate hlt⟩

/-- C1, witness: a fee of `21000000000000.5` for `21000 + 0.5` units of
gas. -/
theorem feeRate_nearest_witness :
    ∃ rate : Nat,
      (gasPriceOf (Decimal.fin false 210000000000005 1) (Decimal.fin false 21000 0)
        (Decimal.fin false 5 1)).toFixed0 = numeral 10 rate ∧
      (rate : ℚ) - 1 / 2 ≤ (Decimal.fin false 210000000000005 1).toRat /
        ((Decimal.fin false 21000 0).toRat + (Decimal.fin false 5 1).toRat) ∧
      (Decimal.fin false 210000000000005 1).toRat /
        ((Decimal.fin false 21000 0).toRat + (Decimal.fin false 5 1).toRat) <
          (rate : ℚ) + 1 / 2 ∧
      ∀ p, transactionParams acceptingLibs decimalFeeTx = Step.ok p →
        p.gasPrice = "0x" ++ numeral 16 rate :=
  feeRate_nearest acceptingLibs decimalFeeTx
    { sampleUnspent with gasDataFee := JSVal.str "0.5" } 210000000000005 1 21000 0 5 1 rfl
    (by decide) (by decide) (by decide) (by decide) (by decide) (by norm_num)

/-! ## C2 -/

/-- C2, as stated, fails: with a fee of `2 * 10 ^ 65 + 4` and gas fees `1` and
`1` the fee rate is `10 ^ 65`, and `10 ^ 65 * 2` misses the fee by `4`, more
than the `2` that one whole unit of rate is worth. -/
theorem feeRate_product_off :
    (gasPriceOf (Decimal.fin false (2 * 10 ^ 65 + 4) 0) (Decimal.fin false 1 0)
        (Decimal.fin false 1 0)).toFixed0 = numeral 10 (10 ^ 65) ∧
      10 ^ 65 * (1 + 1) + (1 + 1) < 2 * 10 ^ 65 + 4 := by
  refine ⟨by decide, by norm_num⟩

/-- C2 (amended): for positive decimals `gasBaseFee`, `gasDataFee` and
`totalFee` within the precision of the decimal layer (the sum of the gas fees,
written at the larger of their two scales, is below `10 ^ 64`, and the digits
of the fee followed by that many zeros are below `10 ^ 63`), the fee rate
times `gasBaseFee + gasDataFee` differs from `totalFee` by at most
`gasBaseFee + gasDataFee`, the worth of one whole unit of rate. -/
theorem feeRate_product_close (L : Libs) (data : TxData) (u : Unspent)
    (cf sf cb sb cd sd : Nat) (hu : data.unspent = some u)
    (hF : newDecimal data.fee = some (Decimal.fin false cf sf))
    (hB : newDecimal u.gasBaseFee = some (Decimal.fin false cb sb))
    (hD : newDecimal u.gasDataFee = some (Decimal.fin false cd sd))
    (_hf : 0 < cf) (hb : 0 < cb) (_hd : 0 < cd)
    (hsum : scaledSum false cb sb false cd sd < 10 ^ 64)
    (hfee : cf * 10 ^ (max sb sd) < 10 ^ 63) :
    ∃ rate : Nat,
      (gasPriceOf (Decimal.fin false cf sf) (Decimal.fin false cb sb)
        (Decimal.fin false cd sd)).toFixed0 = numeral 10 rate ∧
      (∀ p, transactionParams L data = Step.ok p → p.gasPrice = "0x" ++ numeral 16 rate) ∧
      |(rate : ℚ) * ((Decimal.fin false cb sb).toRat + (Decimal.fin false cd sd).toRat) -
          (Decimal.fin false cf sf).toRat| ≤
        (Decimal.fin false cb sb).toRat + (Decimal.fin false cd sd).toRat := by
  have hpos : 0 < scaledSum false cb sb false cd sd := by
    unfold scaledSum
    simp only [signedVal, Bool.false_eq_true, if_false]
    have : 0 < cb * 10 ^ (max sb sd - sb) := Nat.mul_pos hb (Nat.pow_pos (by norm_num))
    have h0 : (0 : Int) < ((cb * 10 ^ (max sb sd - sb) : Nat) : Int) := by exact_mod_cast this
    have h1 : (0 : Int) ≤ ((cd * 10 ^ (max sb sd - sd) : Nat) : Int) := Int.natCast_nonneg _
    omega
  obtain ⟨rate, hrate, hlt, hs, h1, h2⟩ :=
    feeRate_rat cf sf false cb sb false cd sd hpos hsum hfee
  refine ⟨rate, hrate, fun p hp =>
    gasPrice_of_rate L data u _ _ _ p rate hu hF hB hD hp hrate hlt, ?_⟩
  generalize (Decimal.fin false cb sb).toRat + (Decimal.fin false cd sd).toRat = s at hs h1 h2 ⊢
  generalize (Decimal.fin false cf sf).toRat = f at h1 h2 ⊢
  rw [le_div_iff₀ hs] at h1
  rw [div_lt_iff₀ hs] at h2
  rw [abs_le]
  constructor <;> nlinarith

/-- C2, witness: the fee of the sample transfer, `21000000000000`, for
`21000 + 1000` units of gas. -/
theorem feeRate_product_close_witness :
    ∃ rate : Nat,
      (gasPriceOf (Decimal.fin false 21000000000000 0) (Decimal.fin false 21000 0)
        (Decimal.fin false 1000 0)).toFixed0 = numeral 10 rate ∧
      (∀ p, transactionParams acceptingLibs dataFeeTx = Step.ok p →
        p.gasPrice = "0x" ++ numeral 16 rate) ∧
      |(rate : ℚ) * ((Decimal.fin false 21000 0).toRat + (Decimal.fin false 1000 0).toRat) -
          (Decimal.fin false 21000000000000 0).toRat| ≤
        (Decimal.fin false 21000 0).toRat + (Decimal.fin false 1000 0).toRat :=
  feeRate_product_close acceptingLibs dataFeeTx
    { sampleUnspent with gasDataFee := JSVal.num "1000" } 21000000000000 0 21000 0 1000 0 rfl
    (by decide) (by decide) (by decide) (by norm_num) (by norm_num) (by norm_num) (by decide)
    (by norm_num)

/-! ## C3 -/

/-- C3, as stated, fails: with both gas fees zero nothing is reported; the
division gives `Infinity`, which becomes `txParams.gasPrice`, the transaction
goes to the signing library and its result to `dataCallback`. -/
theorem zero_gas_is_not_reported :
    transactionParams acceptingLibs zeroGasTx =
        Step.ok
          { nonce := "0x5", gasPrice := "Infinity", gasLimit := "0x5208"
            to_ := JSVal.str "0xabc", value := "0xde0b6b3a7640000", data := none } ∧
      transaction acceptingLibs zeroGasTx = Outcome.data "0xf86b" := by
  refine ⟨by decide, by decide⟩

/-- C3 (amended): when `unspent.gasBaseFee + unspent.gasDataFee` is zero and
the fee is a finite number, no fee error is reported. The fee rate is `NaN` for
a zero fee and an infinity otherwise, `txParams.gasPrice` is that word, and
`errorCallback` is invoked only in token mode with a message, with the
attachment error. -/
theorem zero_gas_rate_not_finite (L : Libs) (data : TxData) (u : Unspent) (B D : Decimal)
    (nf n : Bool) (cf sf : Nat) (hu : data.unspent = some u)
    (hF : newDecimal data.fee = some (Decimal.fin nf cf sf))
    (hB : newDecimal u.gasBaseFee = some B) (hD : newDecimal u.gasDataFee = some D)
    (hz : B.plus D = Decimal.fin n 0 0) :
    (gasPriceOf (Decimal.fin nf cf sf) B D).toFixed0 =
        (if cf = 0 then "NaN" else if (nf != n) = true then "-Infinity" else "Infinity") ∧
      (∀ p, transactionParams L data = Step.ok p →
        p.gasPrice =
          (if cf = 0 then "NaN" else if (nf != n) = true then "-Infinity" else "Infinity")) ∧
      (∀ msg, transaction L data = Outcome.error msg →
        msg = noAttachment ∧ data.mode = JSVal.str "token" ∧
          hasValidMessage data.message = true) := by
  have hrate : (gasPriceOf (Decimal.fin nf cf sf) B D).toFixed0 =
      (if cf = 0 then "NaN" else if (nf != n) = true then "-Infinity" else "Infinity") := by
    unfold gasPriceOf
    rw [hz]
    by_cases hc : cf = 0
    · simp [Decimal.dividedBy, hc, Decimal.toFixed0]
    · by_cases hs : (nf != n) = true
      · simp [Decimal.dividedBy, hc, Decimal.toFixed0, hs]
      · simp [Decimal.dividedBy, hc, Decimal.toFixed0, hs]
  refine ⟨hrate, ?_, ?_⟩
  · intro p hp
    obtain ⟨u', F, B', G, D', v, hu', hF', hB', hG', hD', _, hgp, _⟩ :=
      transactionParams_ok_inv L data p hp
    rw [hu] at hu'; cases hu'
    rw [hF] at hF'; cases hF'
    rw [hB] at hB'; cases hB'
    rw [hD] at hD'; cases hD'
    rw [hrate] at hgp
    by_cases hc : cf = 0
    · rw [if_pos hc] at hgp ⊢
      have : toHex (JSVal.str "NaN") = some "NaN" := by decide
      rw [this] at hgp; exact (Option.some.inj hgp).symm
    · by_cases hs : (nf != n) = true
      · rw [if_neg hc, if_pos hs] at hgp ⊢
        have : toHex (JSVal.str "-Infinity") = some "-Infinity" := by decide
        rw [this] at hgp; exact (Option.some.inj hgp).symm
      · rw [if_neg hc, if_neg hs] at hgp ⊢
        have : toHex (JSVal.str "Infinity") = some "Infinity" := by decide
        rw [this] at hgp; exact (Option.some.inj hgp).symm
  · intro msg hmsg
    rcases transaction_error_inv L data msg hmsg with h | h
    · rw [hu] at h; exact absurd h.2 (by simp)
    · exact h

/-- C3, witness: the sample transfer with both gas fees zero. -/
theorem zero_gas_rate_not_finite_witness :
    (gasPriceOf (Decimal.fin false 21000000000000 0) (Decimal.fin false 0 0)
        (Decimal.fin false 0 0)).toFixed0 =
        (if 21000000000000 = 0 then "NaN"
          else if (false != false) = true then "-Infinity" else "Infinity") ∧
      (∀ p, transactionParams acceptingLibs zeroGasTx = Step.ok p →
        p.gasPrice =
          (if 21000000000000 = 0 then "NaN"
            else if (false != false) = true then "-Infinity" else "Infinity")) ∧
      (∀ msg, transaction acceptingLibs zeroGasTx = Outcome.error msg →
        msg = noAttachment ∧ zeroGasTx.mode = JSVal.str "token" ∧
          hasValidMessage zeroGasTx.message = true) :=
  zero_gas_rate_not_finite acceptingLibs zeroGasTx
    { sampleUnspent with gasBaseFee := JSVal.num "0" } (Decimal.fin false 0 0)
    (Decimal.fin false 0 0) false false 21000000000000 0 rfl (by decide) (by decide)
    (by decide) (by decide)

/-! ## C4 -/

/-- C4, as stated, fails: with `gasBaseFee = -1`, `gasDataFee = 3` and a fee
of `4` nothing is reported; the rate `4 / 2 = 2` becomes the gas price `0x2`
and the signed transaction goes to `dataCallback`. -/
theorem negative_gas_is_not_reported :
    transactionParams acceptingLibs negativeGasTx =
        Step.ok
          { nonce := "0x5", gasPrice := "0x2", gasLimit := "0x5208"
            to_ := JSVal.str "0xabc", value := "0xde0b6b3a7640000", data := none } ∧
      transaction acceptingLibs negativeGasTx = Outcome.data "0xf86b" := by
  refine ⟨by decide, by decide⟩

/-- C4 (amended): a negative `unspent.gasBaseFee` or `unspent.gasDataFee` is
not rejected. For decimal operands with a positive sum and a non-negative
decimal fee, within the precision of the decimal layer (the sum, written at
the larger of the two scales, is below `10 ^ 64`, and the digits of the fee
followed by that many zeros are below `10 ^ 63`), the gas price is the
hexadecimal form of the whole number within one half of the fee divided by the
sum, and `errorCallback` is invoked only in token mode with a message, with
the attachment error. -/
theorem negative_gas_rate (L : Libs) (data : TxData) (u : Unspent) (cf sf : Nat)
    (n1 : Bool) (c1 s1 : Nat) (n2 : Bool) (c2 s2 : Nat) (hu : data.unspent = some u)
    (hF : newDecimal data.fee = some (Decimal.fin false cf sf))
    (hB : newDecimal u.gasBaseFee = some (Decimal.fin n1 c1 s1))
    (hD : newDecimal u.gasDataFee = some (Decimal.fin n2 c2 s2))
    (_hneg : (Decimal.fin n1 c1 s1).toRat < 0 ∨ (Decimal.fin n2 c2 s2).toRat < 0)
    (hpos : 0 < scaledSum n1 c1 s1 n2 c2 s2)
    (hsum : scaledSum n1 c1 s1 n2 c2 s2 < 10 ^ 64)
    (hfee : cf * 10 ^ (max s1 s2) < 10 ^ 63) :
    ∃ rate : Nat,
      (rate : ℚ) - 1 / 2 ≤ (Decimal.fin false cf sf).toRat /
        ((Decimal.fin n1 c1 s1).toRat + (Decimal.fin n2 c2 s2).toRat) ∧
      (Decimal.fin false cf sf).toRat /
        ((Decimal.fin n1 c1 s1).toRat + (Decimal.fin n2 c2 s2).toRat) < (rate : ℚ) + 1 / 2 ∧
      (∀ p, transactionParams L data = Step.ok p → p.gasPrice = "0x" ++ numeral 16 rate) ∧
      (∀ msg, transaction L data = Outcome.error msg →
        msg = noAttachment ∧ data.mode = JSVal.str "token" ∧
          hasValidMessage data.message = true) := by
  obtain ⟨rate, hrate, hlt, _, h1, h2⟩ := feeRate_rat cf sf n1 c1 s1 n2 c2 s2 hpos hsum hfee
  refine ⟨rate, h1, h2, fun p hp =>
    gasPrice_of_rate L data u _ _ _ p rate hu hF hB hD hp hrate hlt, ?_⟩
  intro msg hmsg
  rcases transaction_error_inv L data msg hmsg with h | h
  · rw [hu] at h; exact absurd h.2 (by simp)
  · exact h

/-- C4, witness: `gasBaseFee = -1`, `gasDataFee = 3` and a fee of `4`. -/
theorem negative_gas_rate_witness :
    ∃ rate : Nat,
      (rate : ℚ) - 1 / 2 ≤ (Decimal.fin false 4 0).toRat /
        ((Decimal.fin true 1 0).toRat + (Decimal.fin false 3 0).toRat) ∧
      (Decimal.fin false 4 0).toRat /
        ((Decimal.fin true 1 0).toRat + (Decimal.fin false 3 0).toRat) < (rate : ℚ) + 1 / 2 ∧
      (∀ p, transactionParams acceptingLibs negativeGasTx = Step.ok p →
        p.gasPrice = "0x" ++ numeral 16 rate) ∧
      (∀ msg, transaction acceptingLibs negativeGasTx = Outcome.error msg →
        msg = noAttachment ∧ negativeGasTx.mode = JSVal.str "token" ∧
          hasValidMessage negativeGasTx.message = true) :=
  negative_gas_rate acceptingLibs negativeGasTx
    { sampleUnspent with gasBaseFee := JSVal.num "-1", gasDataFee := JSVal.num "3" } 4 0 true 1
    0 false 3 0 rfl (by decide) (by decide) (by decide)
    (Or.inl (by norm_num [Decimal.toRat])) (by decide) (by decide) (by norm_num)

/-! ## C5 -/

/-- C5: `toHex(0)` and `toHex('0')` return exactly `'0x0'`, but for the empty
string the constructor `new Decimal('')` throws, so `toHex('')` returns
nothing and the fallback `'0x0'` of `toHex` is not reached. -/
theorem toHex_zero_and_empty :
    toHex (JSVal.num "0") = some "0x0" ∧ toHex (JSVal.str "0") = some "0x0" ∧
      newDecimal (JSVal.str "") = none ∧ toHex (JSVal.str "") = none := by
  refine ⟨by decide, by decide, by decide, by decide⟩

/-! ## C6 -/

/-- C6, as stated, fails: the hexadecimal form keeps 64 significant digits, so
`toHex` of `2 ^ 256 + 1` is the numeral of `2 ^ 256`; and the number `2 ** 60`
reaches the decimal layer as the text `1152921504606847000`, so its `toHex`
reads `2 ^ 60 + 24`. -/
theorem toHex_rounds_above_256_bits :
    numeralVal 10
        "115792089237316195423570985008687907853269984665640564039457584007913129639937".toList =
        2 ^ 256 + 1 ∧
      toHex (JSVal.str
        "115792089237316195423570985008687907853269984665640564039457584007913129639937") =
        some ("0x" ++ String.mk ('1' :: List.replicate 64 '0')) ∧
      numeralVal 16 ('1' :: List.replicate 64 '0') = 2 ^ 256 ∧
      toHex (JSVal.num "1152921504606847000") = some "0x1000000000000018" ∧
      numeralVal 16 "1000000000000018".toList = 2 ^ 60 + 24 := by
  refine ⟨by decide, by decide, by decide, by decide, by decide⟩

/-- C6 (amended): for every non-negative integer `n`, given as a string of
decimal digits with `n < 2 ^ 256`, or as a number with `n <= 2 ^ 53 - 1`
(which the decimal layer reads through its decimal digits), `toHex(n)` is `0x`
followed by hexadecimal digits that, read most significant first in base 16,
equal `n`. -/
theorem toHex_reads_back (v : JSVal) (n : Nat)
    (hv : (v = JSVal.num (numeral 10 n) ∧ n ≤ 2 ^ 53 - 1) ∨
      (n < 2 ^ 256 ∧ ∃ ds : List Char, ds ≠ [] ∧ (∀ c ∈ ds, c.isDigit = true) ∧
        numeralVal 10 ds = n ∧ v = JSVal.str (String.mk ds))) :
    ∃ hs : List Char, toHex v = some ("0x" ++ String.mk hs) ∧ hs ≠ [] ∧
      (∀ c ∈ hs, isHexDigit c = true) ∧ numeralVal 16 hs = n := by
  have hn16 : n < 16 ^ 64 := by
    have e : (2 : Nat) ^ 256 = 16 ^ 64 := by norm_num
    have e2 : (2 : Nat) ^ 53 - 1 < 16 ^ 64 := by norm_num
    rcases hv with ⟨_, h⟩ | ⟨h, _⟩ <;> omega
  have hdec : newDecimal v = some (Decimal.fin false n 0) := by
    rcases hv with ⟨h, _⟩ | ⟨_, ds, hne, hd, hval, h⟩
    · subst h
      have := newDecimal_num_digits _ (numeralChars_ne_nil 10 n) (numeralChars_isDigit n)
      rw [numeralVal_numeralChars 10 n (by norm_num) (by norm_num)] at this
      exact this
    · subst h; rw [newDecimal_digits ds hne hd, hval]
  refine ⟨numeralChars 16 n, toHex_whole v n hdec hn16, numeralChars_ne_nil 16 n,
    numeralChars_isHexDigit n, numeralVal_numeralChars 16 n (by norm_num) (by norm_num)⟩

/-- C6, witness: `toHex(9007199254740991)`, the number `2 ** 53 - 1`. -/
theorem toHex_reads_back_witness :
    ∃ hs : List Char,
      toHex (JSVal.num "9007199254740991") = some ("0x" ++ String.mk hs) ∧
        hs ≠ [] ∧ (∀ c ∈ hs, isHexDigit c = true) ∧ numeralVal 16 hs = 9007199254740991 :=
  toHex_reads_back (JSVal.num "9007199254740991") 9007199254740991
    (Or.inl ⟨by decide, by norm_num⟩)

/-! ## C7 -/

/-- C7: without `unspent` the outcome depends on the fee, which is read
first: the missing-data error is reported when the fee is a numeral, and the
constructor of the decimal layer throws, with no callback invoked, when it is
not. -/
theorem unspent_check_after_fee (L : Libs) (data : TxData) (hu : data.unspent = none) :
    transaction L data =
      (match newDecimal data.fee with
        | none => Outcome.thrown
        | some _ => Outcome.error missingUnspent) := by
  unfold transaction transactionParams
  rcases hF : newDecimal data.fee with _ | F
  · simp only
  · simp only [hu]

/-- C7, failing input: neither `unspent` nor `fee`; the call throws and
reports nothing. -/
theorem unspent_check_after_fee_witness :
    bareTx.unspent = none ∧ transaction acceptingLibs bareTx = Outcome.thrown :=
  ⟨rfl, (unspent_check_after_fee acceptingLibs bareTx rfl).trans (by decide)⟩

/-! ## C8 -/

/-- C8: in token mode with a message and valid numeric fields the attachment
error is reported only after the amount was converted and the call was
encoded; when either of the two throws, so does the transaction builder. -/
theorem token_message_checked_after_encoding (L : Libs) (data : TxData) (u : Unspent)
    (F B G D N : Decimal) (hm : data.mode = JSVal.str "token")
    (hmsg : hasValidMessage data.message = true) (hu : data.unspent = some u)
    (hF : newDecimal data.fee = some F) (hB : newDecimal u.gasBaseFee = some B)
    (hG : newDecimal u.gasLimit = some G) (hD : newDecimal u.gasDataFee = some D)
    (hN : newDecimal u.nonce = some N) :
    transaction L data =
      (match toHex data.amount with
        | none => Outcome.thrown
        | some v =>
          match encode L (transferCall data.target v) with
          | none => Outcome.thrown
          | some _ => Outcome.error noAttachment) := by
  obtain ⟨gp, hgp⟩ := toHex_toFixed0_isSome (gasPriceOf F B D)
  obtain ⟨gl, hgl⟩ := toHex_toFixed0_isSome G
  have hn := toHex_of_newDecimal _ _ hN
  rcases hv : toHex data.amount with _ | v
  · unfold transaction transactionParams
    simp only [hF, hu, hB, hG, hD, hn, hgp, hgl, hv, hm, ne_eq, not_true_eq_false, if_false]
  · show transaction L data =
      (match encode L (transferCall data.target v) with
        | none => Outcome.thrown
        | some _ => Outcome.error noAttachment)
    rcases he : encode L (transferCall data.target v) with _ | enc
    · unfold transaction transactionParams
      simp only [hF, hu, hB, hG, hD, hn, hgp, hgl, hv, hm, he, ne_eq, not_true_eq_false,
        if_false]
    · unfold transaction
      rw [transactionParams_token L data u F B G D _ gp gl v enc hu hF hB hG hD hn hgp hgl hv hm
        he, if_pos hmsg]

/-- C8, failing input: a token transfer with the message `hi` and no amount;
the call throws and reports nothing. -/
theorem token_message_checked_after_encoding_witness :
    tokenMessageTx.mode = JSVal.str "token" ∧ hasValidMessage tokenMessageTx.message = true ∧
      transaction acceptingLibs tokenMessageTx = Outcome.thrown ∧
      transaction rejectingLibs tokenMessageAmountTx = Outcome.thrown :=
  ⟨rfl, by decide,
    (token_message_checked_after_encoding acceptingLibs tokenMessageTx sampleUnspent
      (Decimal.fin false 21000000000000 0) (Decimal.fin false 21000 0)
      (Decimal.fin false 21000 0) (Decimal.fin false 0 0) (Decimal.fin false 5 0) rfl
      (by decide) rfl (by decide) (by decide) (by decide) (by decide) (by decide)).trans
      (by decide),
    by decide⟩

/-! ## C9 -/

/-- C9: in native mode (any mode other than `'token'`) with numeric fee,
amount and unspent data and a non-empty message, the parameters are built with
`data` equal to the message itself, `to` the target and `value` the
hexadecimal form of the amount. -/
theorem native_message_verbatim (L : Libs) (data : TxData) (u : Unspent)
    (F B G D N A : Decimal) (hm : data.mode ≠ JSVal.str "token")
    (hmsg : hasValidMessage data.message = true) (hu : data.unspent = some u)
    (hF : newDecimal data.fee = some F) (hB : newDecimal u.gasBaseFee = some B)
    (hG : newDecimal u.gasLimit = some G) (hD : newDecimal u.gasDataFee = some D)
    (hN : newDecimal u.nonce = some N) (hA : newDecimal data.amount = some A) :
    ∃ p, transactionParams L data = Step.ok p ∧ p.data = some data.message ∧
      p.to_ = data.target ∧ toHex data.amount = some p.value := by
  obtain ⟨gp, hgp⟩ := toHex_toFixed0_isSome (gasPriceOf F B D)
  obtain ⟨gl, hgl⟩ := toHex_toFixed0_isSome G
  have hn := toHex_of_newDecimal _ _ hN
  have hv := toHex_of_newDecimal _ _ hA
  refine ⟨_, transactionParams_native L data u F B G D _ gp gl _ hu hF hB hG hD hn hgp hgl hv hm,
    ?_, rfl, hv⟩
  simp [hmsg]

/-- C9, witness: the sample transfer with the message `hello`. -/
theorem native_message_verbatim_witness :
    ∃ p, transactionParams acceptingLibs nativeMessageTx = Step.ok p ∧
      p.data = some nativeMessageTx.message ∧ p.to_ = nativeMessageTx.target ∧
      toHex nativeMessageTx.amount = some p.value :=
  native_message_verbatim acceptingLibs nativeMessageTx sampleUnspent
    (Decimal.fin false 21000000000000 0) (Decimal.fin false 21000 0)
    (Decimal.fin false 21000 0) (Decimal.fin false 0 0) (Decimal.fin false 5 0)
    (Decimal.fin false 1000000000000000000 0) (by decide) (by decide) rfl (by decide)
    (by decide) (by decide) (by decide) (by decide) (by decide)

/-! ## C10 -/

/-- C10: in token mode with numeric fee, amount and unspent data and no
message, when the ABI library encodes the call, the parameters are built with
`to` the contract, `value` `'0x0'` and `data` the result of `encode` for
`transfer(address,uint256):(bool)`, whose arguments are, in this order, the
target and the hexadecimal form of the amount. -/
theorem token_transfer_params (L : Libs) (data : TxData) (u : Unspent)
    (F B G D N : Decimal) (v hex : String) (hm : data.mode = JSVal.str "token")
    (hmsg : data.message = JSVal.undefined ∨ data.message = JSVal.null ∨
      data.message = JSVal.str "")
    (hu : data.unspent = some u)
    (hF : newDecimal data.fee = some F) (hB : newDecimal u.gasBaseFee = some B)
    (hG : newDecimal u.gasLimit = some G) (hD : newDecimal u.gasDataFee = some D)
    (hN : newDecimal u.nonce = some N) (hv : toHex data.amount = some v)
    (henc : L.simpleEncode "transfer(address,uint256):(bool)" [data.target, JSVal.str v] =
      some hex) :
    ∃ p, transactionParams L data = Step.ok p ∧ p.to_ = data.contract ∧ p.value = "0x0" ∧
      p.data = some (JSVal.str ("0x" ++ hex)) ∧
      encode L (transferCall data.target v) = some ("0x" ++ hex) := by
  obtain ⟨gp, hgp⟩ := toHex_toFixed0_isSome (gasPriceOf F B D)
  obtain ⟨gl, hgl⟩ := toHex_toFixed0_isSome G
  have hn := toHex_of_newDecimal _ _ hN
  have he : encode L (transferCall data.target v) = some ("0x" ++ hex) := by
    have hargs : (transferCall data.target v).vars.map (transferCall data.target v).prop =
        [data.target, JSVal.str v] := by
      simp [transferCall, CallData.prop, List.lookup]
    unfold encode
    rw [hargs]
    simp [transferCall, henc]
  have hp := transactionParams_token L data u F B G D _ gp gl v _ hu hF hB hG hD hn hgp hgl hv
    hm he
  have hno : hasValidMessage data.message = false := by
    rcases hmsg with h | h | h <;> rw [h] <;> decide
  rw [hno] at hp
  exact ⟨_, hp, rfl, rfl, rfl, he⟩

/-- C10, witness: the sample token transfer, with a library that encodes the
call. -/
theorem token_transfer_params_witness :
    ∃ p, transactionParams acceptingLibs tokenTx = Step.ok p ∧ p.to_ = tokenTx.contract ∧
      p.value = "0x0" ∧ p.data = some (JSVal.str ("0x" ++ "a9059cbb")) ∧
      encode acceptingLibs (transferCall tokenTx.target "0xde0b6b3a7640000") =
        some ("0x" ++ "a9059cbb") :=
  token_transfer_params acceptingLibs tokenTx sampleUnspent
    (Decimal.fin false 21000000000000 0) (Decimal.fin false 21000 0)
    (Decimal.fin false 21000 0) (Decimal.fin false 0 0) (Decimal.fin false 5 0)
    "0xde0b6b3a7640000" "a9059cbb" rfl (Or.inl rfl) rfl (by decide) (by decide) (by decide)
    (by decide) (by decide) (by decide) rfl

/-! # Further lemmas -/

theorem toHex_congr (v w : JSVal) (h : newDecimal v = newDecimal w) : toHex v = toHex w := by
  unfold toHex; rw [h]

theorem roundHalfUp_whole (g : Nat) : roundHalfUp g 0 = g := by
  unfold roundHalfUp
  simp only [pow_zero, Nat.mul_one]
  omega

theorem lookup_perm (name : String) (l₁ l₂ : List (String × JSVal)) (hp : l₁.Perm l₂)
    (hnd : (l₂.map Prod.fst).Nodup) : l₁.lookup name = l₂.lookup name := by
  induction hp with
  | nil => rfl
  | cons x _ ih =>
    obtain ⟨k, v⟩ := x
    simp only [List.map_cons, List.nodup_cons] at hnd
    simp only [List.lookup]
    split
    · rfl
    · exact ih hnd.2
  | swap x y l =>
    obtain ⟨k, v⟩ := x
    obtain ⟨k', v'⟩ := y
    simp only [List.map_cons, List.nodup_cons, List.mem_cons, not_or] at hnd
    have hkk : k ≠ k' := hnd.1.1
    by_cases h1 : name = k
    · subst h1
      have h2 : (name == k') = false := beq_eq_false_iff_ne.mpr hkk
      simp [List.lookup, h2]
    · have h1' : (name == k) = false := beq_eq_false_iff_ne.mpr h1
      by_cases h2 : name = k'
      · subst h2; simp [List.lookup, h1']
      · have h2' : (name == k') = false := beq_eq_false_iff_ne.mpr h2
        simp [List.lookup, h1', h2']
  | trans h12 _ ih12 ih23 =>
    rename_i la lb lc h23
    have hndb : (lb.map Prod.fst).Nodup := (h23.map Prod.fst).nodup_iff.mpr hnd
    rw [ih12 hndb, ih23 hnd]

theorem encode_of_names (L : Libs) (d : CallData) (hne : d.vars ≠ []) :
    encode L d = (L.simpleEncode d.func (d.vars.map d.prop)).map (fun hex => "0x" ++ hex) := by
  unfold encode
  rw [if_neg hne]
  cases L.simpleEncode d.func (d.vars.map d.prop) <;> rfl

theorem prog_run (L : Libs) (data : TxData) :
    (transactionProg L data).run =
      match transactionParams L data with
      | Step.thrown => ([], Status.thrown)
      | Step.reported msg => ([Call.errorCallback msg], Status.returned)
      | Step.ok p =>
        match L.signSerialize p data.privateKey with
        | none => ([Call.toSigner], Status.thrown)
        | some _ => ([Call.toSigner, Call.dataCallback], Status.normal) := by
  unfold transactionProg transactionParams
  rcases hF : newDecimal data.fee with _ | F
  · simp [Prog.run]
  rcases hu : data.unspent with _ | u
  · simp [Prog.run]
  rcases hB : newDecimal u.gasBaseFee with _ | B
  · simp [Prog.run, hB]
  rcases hG : newDecimal u.gasLimit with _ | G
  · simp [Prog.run, hB, hG]
  rcases hD : newDecimal u.gasDataFee with _ | D
  · simp [Prog.run, hB, hG, hD]
  rcases hn : toHex u.nonce with _ | nonce
  · simp [Prog.run, hB, hG, hD, hn]
  have hgt : gasPriceText data u = some (gasPriceOf F B D).toFixed0 := by
    simp [gasPriceText, hF, hB, hD]
  rcases hgp : toHex (JSVal.str (gasPriceOf F B D).toFixed0) with _ | gp
  · simp [Prog.run, hB, hG, hD, hn, hgt, hgp]
  rcases hgl : toHex (JSVal.str G.toFixed0) with _ | gl
  · simp [Prog.run, hB, hG, hD, hn, hgt, hgp, hgl]
  by_cases hm : data.mode ≠ JSVal.str "token"
  · rcases hv : toHex data.amount with _ | v
    · simp [Prog.run, hB, hG, hD, hn, hgt, hgp, hgl, hm, hv]
    · rcases hs : L.signSerialize
          { nonce := nonce, gasPrice := gp, gasLimit := gl, to_ := data.target, value := v
            data := if hasValidMessage data.message then some data.message else none }
          data.privateKey with _ | hex
      · simp [Prog.run, hF, hu, hB, hG, hD, hn, hgt, hgp, hgl, hm, hv, hs, transactionParams]
      · simp [Prog.run, hF, hu, hB, hG, hD, hn, hgt, hgp, hgl, hm, hv, hs, transactionParams]
  · have hm' : data.mode = JSVal.str "token" := not_not.mp hm
    rcases hv : toHex data.amount with _ | v
    · simp [Prog.run, hB, hG, hD, hn, hgt, hgp, hgl, hm', hv]
    · rcases he : encode L (transferCall data.target v) with _ | enc
      · simp [Prog.run, hB, hG, hD, hn, hgt, hgp, hgl, hm', hv, he]
      · by_cases hmsg : hasValidMessage data.message = true
        · simp [Prog.run, hB, hG, hD, hn, hgt, hgp, hgl, hm', hv, he, hmsg]
        · rcases hs : L.signSerialize
              { nonce := nonce, gasPrice := gp, gasLimit := gl, to_ := data.contract
                value := "0x0", data := some (JSVal.str enc) } data.privateKey with _ | hex
          · simp [Prog.run, hF, hu, hB, hG, hD, hn, hgt, hgp, hgl, hm', hv, he, hmsg, hs,
              transactionParams]
          · simp [Prog.run, hF, hu, hB, hG, hD, hn, hgt, hgp, hgl, hm', hv, he, hmsg, hs,
              transactionParams]

/-! # Claims, continued -/

/-! ## C11 -/

/-- C11, as stated, fails for the gas limit: it is rounded to a whole number
before the conversion, so a limit of `21000.5` gives `0x5209`, while
`toHex('21000.5')` is `0x5208.8`. -/
theorem gasLimit_is_rounded_first :
    transactionParams acceptingLibs fractionalLimitTx =
        Step.ok
          { nonce := "0x5", gasPrice := "0x3b9aca00", gasLimit := "0x5209"
            to_ := JSVal.str "0xabc", value := "0xde0b6b3a7640000", data := none } ∧
      toHex (JSVal.str "21000.5") = some "0x5208.8" := by
  refine ⟨by decide, by decide⟩

/-- C11 (amended): for numeric fee and unspent data the common fields of the
parameters are `nonce = toHex(unspent.nonce)`, `gasPrice = toHex(feeRate)` with
`feeRate = gasPrice.toFixed(0)`, and `gasLimit = toHex(gasLimit.toFixed(0))`,
the limit rounded to a whole number, which is `toHex(unspent.gasLimit)` when
the limit is a non-negative whole number; a plain transfer with a numeric
amount is built. For the scenario of the specification the fields are
`0x3b9aca00`, `0x5`, `0x5208` and the value `0xde0b6b3a7640000`. -/
theorem common_fields (L : Libs) (data : TxData) (u : Unspent) (F B G D N : Decimal)
    (hu : data.unspent = some u) (hF : newDecimal data.fee = some F)
    (hB : newDecimal u.gasBaseFee = some B) (hG : newDecimal u.gasLimit = some G)
    (hD : newDecimal u.gasDataFee = some D) (hN : newDecimal u.nonce = some N) :
    (∀ p, transactionParams L data = Step.ok p →
        toHex u.nonce = some p.nonce ∧
        toHex (JSVal.str (gasPriceOf F B D).toFixed0) = some p.gasPrice ∧
        toHex (JSVal.str G.toFixed0) = some p.gasLimit) ∧
      (∀ g : Nat, G = Decimal.fin false g 0 →
        toHex (JSVal.str G.toFixed0) = toHex u.gasLimit) ∧
      (data.mode ≠ JSVal.str "token" → ∀ A, newDecimal data.amount = some A →
        ∃ p, transactionParams L data = Step.ok p) ∧
      transactionParams L sampleTx =
        Step.ok
          { nonce := "0x5", gasPrice := "0x3b9aca00", gasLimit := "0x5208"
            to_ := JSVal.str "0xabc", value := "0xde0b6b3a7640000", data := none } := by
  refine ⟨?_, ?_, ?_, ?_⟩
  · intro p hp
    obtain ⟨u', F', B', G', D', v, hu', hF', hB', hG', hD', hn, hgp, hgl, _⟩ :=
      transactionParams_ok_inv L data p hp
    rw [hu] at hu'; cases hu'
    rw [hF] at hF'; cases hF'
    rw [hB] at hB'; cases hB'
    rw [hG] at hG'; cases hG'
    rw [hD] at hD'; cases hD'
    exact ⟨hn, hgp, hgl⟩
  · intro g hg
    subst hg
    apply toHex_congr
    rw [newDecimal_toFixed0, hG]
    simp [roundHalfUp_whole]
  · intro hm A hA
    obtain ⟨gp, hgp⟩ := toHex_toFixed0_isSome (gasPriceOf F B D)
    obtain ⟨gl, hgl⟩ := toHex_toFixed0_isSome G
    exact ⟨_, transactionParams_native L data u F B G D _ gp gl _ hu hF hB hG hD
      (toHex_of_newDecimal _ _ hN) hgp hgl (toHex_of_newDecimal _ _ hA) hm⟩
  · have hgp : toHex (JSVal.str (gasPriceOf (Decimal.fin false 21000000000000 0)
        (Decimal.fin false 21000 0) (Decimal.fin false 0 0)).toFixed0) = some "0x3b9aca00" := by
      decide
    exact transactionParams_native L sampleTx sampleUnspent _ _ (Decimal.fin false 21000 0) _
      "0x5" "0x3b9aca00" "0x5208" "0xde0b6b3a7640000" rfl (by decide) (by decide) (by decide)
      (by decide) (by decide) hgp (by decide) (by decide) (by decide)

/-- C11, witness: the scenario of the specification. -/
theorem common_fields_witness :
    (∀ p, transactionParams acceptingLibs sampleTx = Step.ok p →
        toHex sampleUnspent.nonce = some p.nonce ∧
        toHex (JSVal.str (gasPriceOf (Decimal.fin false 21000000000000 0)
          (Decimal.fin false 21000 0) (Decimal.fin false 0 0)).toFixed0) = some p.gasPrice ∧
        toHex (JSVal.str (Decimal.fin false 21000 0).toFixed0) = some p.gasLimit) ∧
      (∀ g : Nat, Decimal.fin false 21000 0 = Decimal.fin false g 0 →
        toHex (JSVal.str (Decimal.fin false 21000 0).toFixed0) = toHex sampleUnspent.gasLimit) ∧
      (sampleTx.mode ≠ JSVal.str "token" → ∀ A, newDecimal sampleTx.amount = some A →
        ∃ p, transactionParams acceptingLibs sampleTx = Step.ok p) ∧
      transactionParams acceptingLibs sampleTx =
        Step.ok
          { nonce := "0x5", gasPrice := "0x3b9aca00", gasLimit := "0x5208"
            to_ := JSVal.str "0xabc", value := "0xde0b6b3a7640000", data := none } :=
  common_fields acceptingLibs sampleTx sampleUnspent (Decimal.fin false 21000000000000 0)
    (Decimal.fin false 21000 0) (Decimal.fin false 21000 0) (Decimal.fin false 0 0)
    (Decimal.fin false 5 0) rfl (by decide) (by decide) (by decide) (by decide) (by decide)

/-! ## C12 -/

/-- C12: for a list of identifier names that is not empty, `encode` returns
`0x` followed by what the ABI library returns for the signature and the values
`data.name`, in the order of the list; a name other than `func` and `vars`
that the object has as a property stands for that property, and the order in
which the object holds its (distinct) properties plays no part. -/
theorem encode_in_name_order (L : Libs) (d : CallData) (props : List (String × JSVal))
    (hne : d.vars ≠ []) (hnd : (d.props.map Prod.fst).Nodup) (hperm : props.Perm d.props) :
    encode L d =
        (L.simpleEncode d.func (d.vars.map d.prop)).map (fun hex => "0x" ++ hex) ∧
      (∀ name v, name ≠ "func" → name ≠ "vars" → d.props.lookup name = some v →
        d.prop name = v) ∧
      encode L { d with props := props } = encode L d := by
  refine ⟨encode_of_names L d hne, ?_, ?_⟩
  · intro name v h1 h2 h3
    simp [CallData.prop, h1, h2, h3]
  · rw [encode_of_names L d hne, encode_of_names L { d with props := props } hne]
    have : d.vars.map (CallData.prop { d with props := props }) = d.vars.map d.prop := by
      apply List.map_congr_left
      intro name _
      simp only [CallData.prop]
      rw [lookup_perm name props d.props hperm hnd]
    simp only [this]

/-- C12, witness and failing input: the example of the specification, with
the amount written before the target in the object, gives the selector, the
address and then the amount; the call without names throws, whatever the
library. -/
theorem encode_in_name_order_witness :
    (encode abiLibs transferExampleCall =
        (abiLibs.simpleEncode transferExampleCall.func
          (transferExampleCall.vars.map transferExampleCall.prop)).map
            (fun hex => "0x" ++ hex) ∧
      (∀ name v, name ≠ "func" → name ≠ "vars" →
        transferExampleCall.props.lookup name = some v → transferExampleCall.prop name = v) ∧
      encode abiLibs
        { transferExampleCall with
          props := [("target", JSVal.str sampleAddress), ("amount", JSVal.num "100")] } =
        encode abiLibs transferExampleCall) ∧
      transferExampleCall.vars.map transferExampleCall.prop =
        [JSVal.str sampleAddress, JSVal.num "100"] ∧
      encode abiLibs transferExampleCall =
        some ("0x" ++ "a9059cbb" ++
          "00000000000000000000000000000000000000000000000000000000000000aa" ++
          "0000000000000000000000000000000000000000000000000000000000000064") ∧
      emptyCall.vars = [] ∧ encode abiLibs emptyCall = none ∧
      encode acceptingLibs emptyCall = none :=
  ⟨encode_in_name_order abiLibs transferExampleCall
      [("target", JSVal.str sampleAddress), ("amount", JSVal.num "100")] (by decide) (by decide)
      (List.Perm.swap _ _ _),
    by decide, by decide, rfl, by decide, by decide⟩

/-! ## C13 -/

/-- C13, as stated, fails: the call of `setApprovalForAll(address,bool)` whose
object lacks `approved` is not rejected by `encode`; `undefined` goes to the
library in the place of `approved`, the library encodes it as `false`, and
`encode` returns the result. -/
theorem encode_missing_name_not_rejected :
    approvalCall.props.lookup "approved" = none ∧
      approvalCall.vars.map approvalCall.prop =
        [JSVal.str sampleAddress, JSVal.undefined] ∧
      encode abiLibs approvalCall =
        some ("0x" ++ "a22cb465" ++
          "00000000000000000000000000000000000000000000000000000000000000aa" ++
          "0000000000000000000000000000000000000000000000000000000000000000") := by
  refine ⟨by decide, by decide, by decide⟩

/-- C13 (amended): `encode` does not check the names. A listed name other
than `func` and `vars` that is neither a property of the object nor inherited
from `Object.prototype` is read as `undefined`, that value goes to the ABI
library in the place of the name, and `encode` fails exactly when the library
call throws. -/
theorem encode_missing_name_undefined (L : Libs) (d : CallData) (name : String)
    (hname : name ∈ d.vars) (habs : d.props.lookup name = none) (hf : name ≠ "func")
    (hv : name ≠ "vars") (hi : name ∉ objectPrototypeNames) :
    d.prop name = JSVal.undefined ∧ JSVal.undefined ∈ d.vars.map d.prop ∧
      encode L d =
        (L.simpleEncode d.func (d.vars.map d.prop)).map (fun hex => "0x" ++ hex) ∧
      (encode L d = none ↔ L.simpleEncode d.func (d.vars.map d.prop) = none) := by
  have hne : d.vars ≠ [] := List.ne_nil_of_mem hname
  have hp : d.prop name = JSVal.undefined := by
    simp [CallData.prop, hf, hv, habs, hi]
  refine ⟨hp, ?_, encode_of_names L d hne, ?_⟩
  · exact List.mem_map.mpr ⟨name, hname, hp⟩
  · rw [encode_of_names L d hne]
    cases L.simpleEncode d.func (d.vars.map d.prop) <;> simp

/-- C13, witness: the call of `setApprovalForAll(address,bool)` whose object
lacks `approved`; and an inherited name, `toString`, is read as the inherited
function, not as `undefined`. -/
theorem encode_missing_name_undefined_witness :
    (approvalCall.prop "approved" = JSVal.undefined ∧
      JSVal.undefined ∈ approvalCall.vars.map approvalCall.prop ∧
      encode abiLibs approvalCall =
        (abiLibs.simpleEncode approvalCall.func
          (approvalCall.vars.map approvalCall.prop)).map (fun hex => "0x" ++ hex) ∧
      (encode abiLibs approvalCall = none ↔
        abiLibs.simpleEncode approvalCall.func
          (approvalCall.vars.map approvalCall.prop) = none)) ∧
      inheritedNameCall.props.lookup "toString" = none ∧
      inheritedNameCall.prop "toString" = JSVal.other "toString" :=
  ⟨encode_missing_name_undefined abiLibs approvalCall "approved" (by decide) (by decide)
    (by decide) (by decide) (by decide), by decide, by decide⟩

/-! ## C14 -/

/-- C14: in every run of the body of `deterministic.transaction` at most one
callback is invoked, at most once; when `errorCallback` is invoked it is the
only call of the run and the function returns, so nothing went to the signer
and `dataCallback` is not invoked; `dataCallback` is invoked only as the last
statement, after the hand-over to the signer; and the callbacks invoked are
those of the outcome of the function. -/
theorem callbacks_atomic (L : Libs) (data : TxData) :
    (((transactionProg L data).run.1).filter Call.isCallback).length ≤ 1 ∧
      (∀ msg, Call.errorCallback msg ∈ (transactionProg L data).run.1 →
        (transactionProg L data).run = ([Call.errorCallback msg], Status.returned)) ∧
      (Call.dataCallback ∈ (transactionProg L data).run.1 →
        (transactionProg L data).run = ([Call.toSigner, Call.dataCallback], Status.normal)) ∧
      (∀ msg, transaction L data = Outcome.error msg ↔
        Call.errorCallback msg ∈ (transactionProg L data).run.1) ∧
      ((∃ raw, transaction L data = Outcome.data raw) ↔
        Call.dataCallback ∈ (transactionProg L data).run.1) := by
  rw [prog_run]
  unfold transaction
  rcases transactionParams L data with p | m | _
  · simp only
    rcases L.signSerialize p data.privateKey with _ | hex <;>
      simp [List.filter, Call.isCallback]
  · simp [List.filter, Call.isCallback]
    exact fun msg => eq_comm
  · simp [List.filter, Call.isCallback]

/-! ## Lemmas on keys -/

theorem hexNibble_of_isHexDigit (c : Char) (h : isHexDigit c = true) :
    ∃ k, k < 16 ∧ hexNibble c = some k ∧ Nat.digitChar k = c := by
  have hc : c = Char.ofNat c.toNat := (Char.ofNat_toNat c).symm
  have hr : (48 ≤ c.toNat ∧ c.toNat ≤ 57) ∨ (97 ≤ c.toNat ∧ c.toNat ≤ 102) := by
    simp only [isHexDigit, Char.isDigit, Bool.or_eq_true, Bool.and_eq_true, decide_eq_true_eq,
      Char.le_def, UInt32.le_def] at h
    rcases h with h | h
    · left; exact h
    · right; exact h
  generalize c.toNat = n at hc hr
  subst hc
  rcases hr with ⟨h1, h2⟩ | ⟨h1, h2⟩ <;> interval_cases n <;>
    exact ⟨_, by decide, rfl, rfl⟩

theorem hexDecode_length_le : ∀ (n : Nat) (cs : List Char), cs.length ≤ n →
    (hexDecode cs).length ≤ cs.length / 2 := by
  intro n
  induction n using Nat.strong_induction_on with
  | _ n ih =>
    intro cs hn
    match cs with
    | [] => simp [hexDecode]
    | [_] => simp [hexDecode]
    | c1 :: c2 :: rest =>
      simp only [hexDecode]
      split
      · have := ih rest.length (by simp at hn; omega) rest (le_refl _)
        simp only [List.length_cons]
        omega
      · simp

theorem hexEncode_hexDecode_aux : ∀ (n : Nat) (h : List Char), h.length ≤ n →
    (∀ c ∈ h, isHexDigit c = true) → h.length % 2 = 0 →
    hexEncode (hexDecode h) = h ∧ (hexDecode h).length = h.length / 2 := by
  intro n
  induction n using Nat.strong_induction_on with
  | _ n ih =>
    intro h hn hhex heven
    match h with
    | [] => simp [hexDecode, hexEncode]
    | [_] => simp at heven
    | c1 :: c2 :: rest =>
      obtain ⟨a, ha, hna, hca⟩ := hexNibble_of_isHexDigit c1 (hhex c1 (by simp))
      obtain ⟨b, hb, hnb, hcb⟩ := hexNibble_of_isHexDigit c2 (hhex c2 (by simp))
      have hrest := ih rest.length (by simp at hn; omega) rest (le_refl _)
        (fun c hc => hhex c (by simp [hc])) (by simp at heven; omega)
      have e1 : (16 * a + b) / 16 = a := by omega
      have e2 : (16 * a + b) % 16 = b := by omega
      simp only [hexDecode, hna, hnb, hexEncode, e1, e2, hca, hcb, hrest.1, List.length_cons,
        hrest.2, true_and]
      omega

/-! ## C15 -/

/-- C15, as stated, fails: the string `abcd` decodes to two bytes, and
`deterministic.importPrivate` returns them as the private key without an
error. -/
theorem importPrivate_short_key :
    importPrivate (JSVal.str "abcd") = some { privateKey := [171, 205] } ∧
      [171, 205].length ≠ 32 := by
  refine ⟨by decide, by decide⟩

/-- C15 (amended): `deterministic.importPrivate` does not check the key. For
every string it returns a key pair, whose private key has one byte for each
leading pair of hexadecimal digits: at most half as many bytes as the string
has characters, and exactly half as many for a string of an even number of
lower-case hexadecimal digits. -/
theorem importPrivate_unchecked (s : String) :
    ∃ k, importPrivate (JSVal.str s) = some k ∧ k.privateKey.length ≤ s.length / 2 ∧
      ((∀ c ∈ s.toList, isHexDigit c = true) → s.length % 2 = 0 →
        k.privateKey.length = s.length / 2) := by
  refine ⟨⟨hexDecode s.toList⟩, rfl, ?_, ?_⟩
  · exact hexDecode_length_le s.toList.length s.toList (le_refl _)
  · intro hhex heven
    exact (hexEncode_hexDecode_aux s.toList.length s.toList (le_refl _) hhex heven).2

/-! ## C17 -/

/-- C17, as stated, fails: a fee of `3` for `2 + 0` units of gas gives the
quotient `1.5`, which is rounded up to the rate `2`, and `2 * 2` exceeds the
fee. -/
theorem feeRate_exceeds_budget :
    (gasPriceOf (Decimal.fin false 3 0) (Decimal.fin false 2 0)
        (Decimal.fin false 0 0)).toFixed0 = "2" ∧
      transactionParams acceptingLibs halfRateTx =
        Step.ok
          { nonce := "0x5", gasPrice := "0x2", gasLimit := "0x5208"
            to_ := JSVal.str "0xabc", value := "0xde0b6b3a7640000", data := none } ∧
      3 < 2 * (2 + 0) := by
  refine ⟨by decide, by decide, by decide⟩

/-- C17 (amended): for non-negative decimals `fee`, `gasBaseFee` and
`gasDataFee` with a positive sum, within the precision of the decimal layer
(as in C1), the total implied by the rate exceeds the fee by at most half of
the sum, `feeRate * (gasBaseFee + gasDataFee) <= fee + (gasBaseFee +
gasDataFee) / 2`; it stays within the fee exactly when the fractional part of
the quotient `fee / (gasBaseFee + gasDataFee)` is less than one half. -/
theorem feeRate_budget (L : Libs) (data : TxData) (u : Unspent)
    (cf sf cb sb cd sd : Nat) (hu : data.unspent = some u)
    (hF : newDecimal data.fee = some (Decimal.fin false cf sf))
    (hB : newDecimal u.gasBaseFee = some (Decimal.fin false cb sb))
    (hD : newDecimal u.gasDataFee = some (Decimal.fin false cd sd))
    (hpos : 0 < scaledSum false cb sb false cd sd)
    (hsum : scaledSum false cb sb false cd sd < 10 ^ 64)
    (hfee : cf * 10 ^ (max sb sd) < 10 ^ 63) :
    ∃ rate : Nat,
      (∀ p, transactionParams L data = Step.ok p → p.gasPrice = "0x" ++ numeral 16 rate) ∧
      (rate : ℚ) * ((Decimal.fin false cb sb).toRat + (Decimal.fin false cd sd).toRat) ≤
        (Decimal.fin false cf sf).toRat +
          ((Decimal.fin false cb sb).toRat + (Decimal.fin false cd sd).toRat) / 2 ∧
      ((rate : ℚ) * ((Decimal.fin false cb sb).toRat + (Decimal.fin false cd sd).toRat) ≤
          (Decimal.fin false cf sf).toRat ↔
        Int.fract ((Decimal.fin false cf sf).toRat /
          ((Decimal.fin false cb sb).toRat + (Decimal.fin false cd sd).toRat)) < 1 / 2) := by
  obtain ⟨rate, hrate, hlt, hs, h1, h2⟩ :=
    feeRate_rat cf sf false cb sb false cd sd hpos hsum hfee
  refine ⟨rate, fun p hp =>
    gasPrice_of_rate L data u _ _ _ p rate hu hF hB hD hp hrate hlt, ?_, ?_⟩
  · generalize (Decimal.fin false cb sb).toRat + (Decimal.fin false cd sd).toRat = s
      at hs h1 h2 ⊢
    generalize (Decimal.fin false cf sf).toRat = f at h1 h2 ⊢
    rw [le_div_iff₀ hs] at h1
    nlinarith
  · rw [← le_div_iff₀ hs]
    generalize (Decimal.fin false cf sf).toRat /
      ((Decimal.fin false cb sb).toRat + (Decimal.fin false cd sd).toRat) = q at h1 h2 ⊢
    have hfl : (⌊q⌋ : ℚ) ≤ q := Int.floor_le q
    have hfr : Int.fract q = q - ⌊q⌋ := rfl
    constructor
    · intro hle
      have : ((rate : Int) : ℚ) ≤ q := by exact_mod_cast hle
      have hr : (rate : Int) ≤ ⌊q⌋ := Int.le_floor.mpr this
      have hrq : ((rate : Int) : ℚ) ≤ (⌊q⌋ : ℚ) := by exact_mod_cast hr
      have hcast : ((rate : Int) : ℚ) = (rate : ℚ) := Int.cast_natCast rate
      rw [hfr]
      linarith
    · intro hlt2
      rw [hfr] at hlt2
      have h3 : ((rate : Int) : ℚ) < (⌊q⌋ : ℚ) + 1 := by
        have hcast : ((rate : Int) : ℚ) = (rate : ℚ) := Int.cast_natCast rate
        rw [hcast]; linarith
      have h4 : (rate : Int) < ⌊q⌋ + 1 := by exact_mod_cast h3
      have h5 : (rate : Int) ≤ ⌊q⌋ := by omega
      have h6 : ((rate : Int) : ℚ) ≤ (⌊q⌋ : ℚ) := by exact_mod_cast h5
      have hcast : ((rate : Int) : ℚ) = (rate : ℚ) := Int.cast_natCast rate
      rw [← hcast]
      linarith

/-- C17, witness: the scenario of the specification. -/
theorem feeRate_budget_witness :
    ∃ rate : Nat,
      (∀ p, transactionParams acceptingLibs sampleTx = Step.ok p →
        p.gasPrice = "0x" ++ numeral 16 rate) ∧
      (rate : ℚ) * ((Decimal.fin false 21000 0).toRat + (Decimal.fin false 0 0).toRat) ≤
        (Decimal.fin false 21000000000000 0).toRat +
          ((Decimal.fin false 21000 0).toRat + (Decimal.fin false 0 0).toRat) / 2 ∧
      ((rate : ℚ) * ((Decimal.fin false 21000 0).toRat + (Decimal.fin false 0 0).toRat) ≤
          (Decimal.fin false 21000000000000 0).toRat ↔
        Int.fract ((Decimal.fin false 21000000000000 0).toRat /
          ((Decimal.fin false 21000 0).toRat + (Decimal.fin false 0 0).toRat)) < 1 / 2) :=
  feeRate_budget acceptingLibs sampleTx sampleUnspent 21000000000000 0 21000 0 0 0 rfl
    (by decide) (by decide) (by decide) (by decide) (by decide) (by norm_num)

/-! ## C18 -/

/-- C18: with numeric fee, amount and unspent data, a mode other than the
string `token` (a missing mode, `TOKEN`, `native`, any other value) gives a
plain transfer with `to` the target and `value` the hexadecimal form of the
amount, whatever the contract and the ABI library; the mode `token` gives
parameters with `to` the contract, `value` `0x0` and `data` the encoded
call. -/
theorem mode_branch (L : Libs) (data : TxData) (u : Unspent) (F B G D N : Decimal)
    (v : String) (hu : data.unspent = some u) (hF : newDecimal data.fee = some F)
    (hB : newDecimal u.gasBaseFee = some B) (hG : newDecimal u.gasLimit = some G)
    (hD : newDecimal u.gasDataFee = some D) (hN : newDecimal u.nonce = some N)
    (hv : toHex data.amount = some v) :
    (data.mode ≠ JSVal.str "token" →
        (∃ p, transactionParams L data = Step.ok p ∧ p.to_ = data.target ∧ p.value = v) ∧
        ∀ (L' : Libs) (c : JSVal),
          transactionParams L' { data with contract := c } = transactionParams L data) ∧
      (data.mode = JSVal.str "token" →
        ∀ p, transactionParams L data = Step.ok p →
          p.to_ = data.contract ∧ p.value = "0x0" ∧
            ∃ enc, encode L (transferCall data.target v) = some enc ∧
              p.data = some (JSVal.str enc)) := by
  obtain ⟨gp, hgp⟩ := toHex_toFixed0_isSome (gasPriceOf F B D)
  obtain ⟨gl, hgl⟩ := toHex_toFixed0_isSome G
  have hn := toHex_of_newDecimal _ _ hN
  constructor
  · intro hm
    have hp := transactionParams_native L data u F B G D _ gp gl v hu hF hB hG hD hn hgp hgl hv hm
    refine ⟨⟨_, hp, rfl, rfl⟩, ?_⟩
    intro L' c
    rw [hp]
    exact transactionParams_native L' { data with contract := c } u F B G D _ gp gl v hu hF hB
      hG hD hn hgp hgl hv hm
  · intro hm p hp
    obtain ⟨u', F', B', G', D', v', _, _, _, _, _, _, _, _, hv', hcase⟩ :=
      transactionParams_ok_inv L data p hp
    rw [hv] at hv'; cases hv'
    rcases hcase with h | h
    · exact absurd hm h.1
    · exact ⟨h.2.2.1, h.2.2.2.1, h.2.2.2.2⟩

/-- C18, witness: the sample transfer with the mode `TOKEN` in upper case. -/
theorem mode_branch_witness :
    (upperTokenTx.mode ≠ JSVal.str "token" →
        (∃ p, transactionParams acceptingLibs upperTokenTx = Step.ok p ∧
          p.to_ = upperTokenTx.target ∧ p.value = "0xde0b6b3a7640000") ∧
        ∀ (L' : Libs) (c : JSVal),
          transactionParams L' { upperTokenTx with contract := c } =
            transactionParams acceptingLibs upperTokenTx) ∧
      (upperTokenTx.mode = JSVal.str "token" →
        ∀ p, transactionParams acceptingLibs upperTokenTx = Step.ok p →
          p.to_ = upperTokenTx.contract ∧ p.value = "0x0" ∧
            ∃ enc, encode acceptingLibs (transferCall upperTokenTx.target "0xde0b6b3a7640000") =
              some enc ∧ p.data = some (JSVal.str enc)) :=
  mode_branch acceptingLibs upperTokenTx sampleUnspent (Decimal.fin false 21000000000000 0)
    (Decimal.fin false 21000 0) (Decimal.fin false 21000 0) (Decimal.fin false 0 0)
    (Decimal.fin false 5 0) "0xde0b6b3a7640000" rfl (by decide) (by decide) (by decide)
    (by decide) (by decide) (by decide)

/-! ## C19 -/

/-- C19: for every string `h` of an even number of lower-case hexadecimal
digits, `deterministic.privatekey(deterministic.importPrivate({privateKey: h}))`
is `h`. -/
theorem import_export_roundtrip (h : List Char) (hhex : ∀ c ∈ h, isHexDigit c = true)
    (heven : h.length % 2 = 0) :
    (importPrivate (JSVal.str (String.mk h))).map privatekey = some (String.mk h) := by
  simp only [importPrivate, Option.map_some', privatekey, String.toList]
  rw [(hexEncode_hexDecode_aux h.length h (le_refl _) hhex heven).1]

/-- C19, witness: the key `00ff10abcdef`. -/
theorem import_export_roundtrip_witness :
    (importPrivate (JSVal.str (String.mk "00ff10abcdef".toList))).map privatekey =
      some (String.mk "00ff10abcdef".toList) :=
  import_export_roundtrip "00ff10abcdef".toList (by decide) (by decide)

end Deterministic
